import Mathlib

/-!
# Companion proxy: action registry, dispatcher and persistence

A shallow embedding of `src/main.go` (the HTTP handlers `createAction`,
`updateAction`, `deleteAction`, `triggerAction`, the `edit` command, and the
helpers `executeAction`, `logError`, `logTrigger`, `generateID`, `saveToFile`,
`loadFromFile`), followed by theorems about the registry, the execution log
and the snapshot file.

Modelling conventions.

* The program's globals `actions`, `logs` and the snapshot file on disk are
  the three fields of `State`; every handler is a function from a state (and
  the inputs it reads from its environment) to a new state and a response.
* A Go `string` is the list of its bytes (`GoString`); a string constant of
  the source is the UTF-8 encoding of its text (`lit`).
* A Go `map[string]T` is `none` when it is the nil map and otherwise a
  key-unique association list (`AList`); the order of its entries is never
  observed by the code, which only looks keys up and asks whether some entry
  satisfies a test. Reading a nil map finds nothing, writing to it panics.
* Everything the code obtains from outside the repository is an explicit
  input: the decoded request body, the bytes returned by `rand.Read`, the
  clock reading `time.Now()`, the results of `http.NewRequest` and
  `client.Do`, the `encoding/json` codec and the success of file operations.
  The codec of `encoding/json` for the snapshot is also given concretely, as
  `goJSON`.
* Handlers run one after the other, each from the moment it holds its locks,
  except in the section on concurrent calls of `createAction`, where the
  critical sections of several calls are interleaved.
* A handler that panics answers `panicked` and leaves the state as it stands
  at the panic. The only panic of the handlers is the insertion of
  `createAction` into a nil map, which happens while `actionsMu` is held; in
  the program every later handler that takes that mutex then waits for it,
  and the state stays what it is. The functions below say what a handler does once it has
  its locks; on a state whose map is nil none of them changes anything
  (`handle_of_nil`).
-/

namespace CompanionProxy

/-! ## Strings -/

/-- A Go `string`: its bytes, each a number below 256. -/
abbrev GoString := List Nat

/-- The UTF-8 encoding of one character. -/
def utf8EncodeChar (c : Char) : List Nat :=
  if c.toNat < 0x80 then [c.toNat]
  else if c.toNat < 0x800 then [0xC0 + c.toNat / 64, 0x80 + c.toNat % 64]
  else if c.toNat < 0x10000 then
    [0xE0 + c.toNat / 4096, 0x80 + c.toNat / 64 % 64, 0x80 + c.toNat % 64]
  else
    [0xF0 + c.toNat / 262144, 0x80 + c.toNat / 4096 % 64, 0x80 + c.toNat / 64 % 64,
      0x80 + c.toNat % 64]

/-- The UTF-8 encoding of a text. -/
def utf8Encode (text : List Char) : GoString :=
  text.flatMap utf8EncodeChar

/-- A string constant of the source. -/
def lit (text : String) : GoString :=
  utf8Encode text.toList

/-! ## Data model -/

/-- Equality of association lists is decided on their entries. -/
instance decEqAList {K V : Type} [DecidableEq K] [DecidableEq V] :
    DecidableEq (AList (fun _ : K => V)) :=
  fun xs ys => decidable_of_iff (xs.entries = ys.entries) AList.ext_iff.symm

/-- A Go `map[string]string`; `none` is the nil map that decoding produces
when the `headers` field is absent or `null`. -/
abbrev HeaderMap := Option (AList (fun _ : GoString => GoString))

/-- The struct `Action`. -/
structure Action where
  ID : GoString
  Name : GoString
  URL : GoString
  Method : GoString
  Headers : HeaderMap
  Body : GoString
  deriving DecidableEq

/-- A reading of `time.Now()` as the wall clock shows it: the calendar date,
the time of day to the nanosecond, and the offset of the zone east of UTC in
minutes. The monotonic reading and the zone name that a `time.Time` also
carries are never written or printed by the program. -/
structure Time where
  year : Nat
  month : Nat
  day : Nat
  hour : Nat
  minute : Nat
  second : Nat
  nanosecond : Nat
  zone : Int
  deriving DecidableEq

/-- The struct `LogEntry`. -/
structure LogEntry where
  Timestamp : Time
  ActionID : GoString
  Success : Bool
  Response : GoString
  deriving DecidableEq

/-- The entries of a non-nil `map[string]Action`. -/
abbrev ActionMap := AList (fun _ : GoString => Action)

/-- The struct `PersistentData`; `Actions` is `none` for the nil map. -/
structure PersistentData where
  Actions : Option ActionMap
  Logs : List LogEntry
  deriving DecidableEq

/-- The two `encoding/json` calls of the program, at type `PersistentData`:
`json.MarshalIndent(data, "", "  ")` and `json.Unmarshal(file, &data)`, each
giving its result or the text of its error. -/
structure Codec where
  marshalIndent : PersistentData → Except GoString GoString
  unmarshal : GoString → Except GoString PersistentData

/-- The snapshot file `companion_proxy_data.json` and how the file system
answers: `content` is `none` while the file is absent; `writeError = none`
means `os.WriteFile` succeeds, `writeError = some r` that it returns an error
and leaves the file as `r`; `readError` means `os.ReadFile` fails for a reason
other than absence. -/
structure Disk where
  content : Option GoString
  writeError : Option (Option GoString)
  readError : Bool
  deriving DecidableEq

/-- The program state: the globals `actions` (`none` when it is the nil map)
and `logs`, and the disk. -/
structure State where
  actions : Option ActionMap
  logs : List LogEntry
  disk : Disk
  deriving DecidableEq

/-- The global `actions` as the code reads it: a nil map has no entries. -/
def State.registry (s : State) : ActionMap :=
  s.actions.getD ∅

/-- The assignment `actions[key] = action`; `none` is the panic
`assignment to entry in nil map`. -/
def store (s : State) (key : GoString) (action : Action) : Option State :=
  match s.actions with
  | none => none
  | some m => some { s with actions := some (m.insert key action) }

/-- What a handler writes to its `http.ResponseWriter`. -/
inductive Response where
  /-- The call `respondJSON(w, action)`: status 200 with the action as JSON. -/
  | json (a : Action)
  /-- The call `http.Error(w, msg, code)`. -/
  | error (msg : GoString) (code : Nat)
  /-- The call `w.WriteHeader(code)` with no body. -/
  | status (code : Nat)
  /-- The call `w.WriteHeader(code)` followed by `fmt.Fprintf(w, ...)`. -/
  | text (code : Nat) (body : GoString)
  /-- The handler panicked with `msg` before writing anything: `net/http`
  recovers the panic and drops the connection. -/
  | panicked (msg : GoString)
  deriving DecidableEq

/-! ## Persistence: `saveToFile`, `loadFromFile` -/

/-- The function `saveToFile`: marshal `actions` and `logs`, write the file;
a marshalling error returns before the write. -/
def saveToFile (c : Codec) (s : State) : State :=
  match c.marshalIndent { Actions := s.actions, Logs := s.logs } with
  | .error _ => s
  | .ok file =>
    match s.disk.writeError with
    | none => { s with disk := { s.disk with content := some file } }
    | some r => { s with disk := { s.disk with content := r } }

/-- The function `loadFromFile`: a missing or unreadable file, or one that does
not parse, leaves the globals as they are; otherwise both are replaced, and
`actions` becomes the nil map when the file has no `actions` object. -/
def loadFromFile (c : Codec) (s : State) : State :=
  if s.disk.readError then s
  else
    match s.disk.content with
    | none => s
    | some file =>
      match c.unmarshal file with
      | .error _ => s
      | .ok data => { s with actions := data.Actions, logs := data.Logs }

/-! ## Identifier generator: `generateID` -/

/-- The constant `hextable` of `encoding/hex`. -/
def hextable : GoString := lit "0123456789abcdef"

/-- The function `hex.EncodeToString`: for each byte `v`, the bytes
`hextable[v>>4]` and `hextable[v&0x0f]`. -/
def hexEncodeToString (src : List Nat) : GoString :=
  src.flatMap fun v =>
    [hextable.getD ((v % 256) / 16) 0, hextable.getD ((v % 256) % 16) 0]

/-- The buffer `b` after `b := make([]byte, 8); rand.Read(b)`, for a random
source `rnd` giving the byte written at each index. -/
def randRead (rnd : Nat → Nat) : List Nat :=
  (List.range 8).map fun i => rnd i % 256

/-- The function `generateID`. -/
def generateID (rnd : Nat → Nat) : GoString :=
  hexEncodeToString (randRead rnd)

/-! ## Registry handlers -/

/-- The loop of `createAction`: `for _, a := range actions` finding
`a.Name == action.Name`. -/
def nameTaken (m : ActionMap) (name : GoString) : Bool :=
  m.entries.any fun e => e.2.Name == name

/-- The loop of `updateAction`: an entry with `a.ID != actionID` and
`a.Name == updatedAction.Name`. -/
def nameTakenByOther (m : ActionMap) (actionID name : GoString) : Bool :=
  m.entries.any fun e => e.2.ID != actionID && e.2.Name == name

/-- Lines 447-451 of `createAction`: the default method and the generated id. -/
def prepare (action : Action) (rnd : Nat → Nat) : Action :=
  let action := if action.Method = lit "" then { action with Method := lit "POST" } else action
  { action with ID := generateID rnd }

/-- The handler `createAction`, given the result `decoded` of decoding the
request body into an `Action` and the random source read by `generateID`.
When `actions` is the nil map the insertion at line 454 panics; it does so
between `actionsMu.Lock()` and `actionsMu.Unlock()`, so the lock stays held. -/
def createAction (c : Codec) (s : State) (decoded : Except GoString Action)
    (rnd : Nat → Nat) : State × Response :=
  match decoded with
  | .error err => (s, .error err 400)
  | .ok action =>
    if nameTaken s.registry action.Name then
      (s, .error (lit "Action name must be unique") 400)
    else if action.URL = lit "" then
      (s, .error (lit "URL is required") 400)
    else
      match store s (prepare action rnd).ID (prepare action rnd) with
      | none => (s, .panicked (lit "assignment to entry in nil map"))
      | some s => (saveToFile c s, .json (prepare action rnd))

/-- The handler `updateAction`, given the result of decoding the request body
and the `actionID` left of the URL path after the prefix `/actions/`. -/
def updateAction (c : Codec) (s : State) (decoded : Except GoString Action)
    (actionID : GoString) : State × Response :=
  match decoded with
  | .error _ => (s, .error (lit "Invalid JSON request body") 400)
  | .ok updatedAction =>
    if actionID = lit "" then
      (s, .error (lit "Action ID is required") 400)
    else
      match s.registry.lookup actionID with
      | none => (s, .error (lit "Action not found") 404)
      | some action =>
        if nameTakenByOther s.registry actionID updatedAction.Name then
          (s, .error (lit "Action name must be unique") 400)
        else
          let action := { action with
            Name := updatedAction.Name
            URL := updatedAction.URL
            Method := updatedAction.Method
            Headers := updatedAction.Headers
            Body := updatedAction.Body }
          match store s actionID action with
          | none => (s, .panicked (lit "assignment to entry in nil map"))
          | some s => (saveToFile c s, .json action)

/-- The handler `deleteAction`. -/
def deleteAction (c : Codec) (s : State) (actionID : GoString) : State × Response :=
  if actionID = lit "" then
    (s, .error (lit "Action ID is required") 400)
  else
    match s.registry.lookup actionID with
    | none => (s, .error (lit "Action not found") 404)
    | some _ =>
      let s := { s with actions := s.actions.map fun m => m.erase actionID }
      (saveToFile c s, .status 204)

/-- The `edit` case of `main`, the command-line sibling of `updateAction`, up
to what it prints. The arguments are the values of the flags; `parts` is the
result of `strings.SplitN(*header, ":", 2)` with `strings.TrimSpace` applied to
both parts, `none` when the split does not give two parts. The state is
returned as it stands when the command stops. -/
def editCommand (c : Codec) (s : State) (id name url method header body : GoString)
    (parts : Option (GoString × GoString)) : State :=
  if id = lit "" then s
  else
    let s := loadFromFile c s
    match s.registry.lookup id with
    | none => s
    | some action =>
      if name ≠ lit "" ∧ name ≠ action.Name ∧ nameTaken s.registry name = true then s
      else
        let action :=
          if name ≠ lit "" ∧ name ≠ action.Name then { action with Name := name } else action
        let action := if url ≠ lit "" then { action with URL := url } else action
        let action := if method ≠ lit "" then { action with Method := method } else action
        let finish := fun (action : Action) =>
          let action := if body ≠ lit "" then { action with Body := body } else action
          match store s id action with
          | none => s
          | some s => saveToFile c s
        if header ≠ lit "" then
          match parts with
          | none => s
          | some (key, value) =>
            finish { action with Headers := some (AList.singleton key value) }
        else finish action

/-! ## Dispatcher -/

/-- The fields of `*http.Response` the program reads. -/
structure HTTPResponse where
  StatusCode : Int
  Status : GoString
  deriving DecidableEq

/-- The function `logError`. -/
def logError (s : State) (now : Time) (actionID message : GoString) : State :=
  { s with logs := s.logs ++
      [{ Timestamp := now, ActionID := actionID, Success := false, Response := message }] }

/-- The function `logTrigger`. -/
def logTrigger (c : Codec) (s : State) (now : Time) (actionID : GoString) (success : Bool)
    (response : GoString) : State :=
  saveToFile c { s with logs := s.logs ++
      [{ Timestamp := now, ActionID := actionID, Success := success, Response := response }] }

/-- The triple `(bool, string, error)` returned by `executeAction`; `err` is
`none` for a nil error and the error text otherwise. -/
structure ExecResult where
  success : Bool
  logMsg : GoString
  err : Option GoString
  deriving DecidableEq

/-- The function `executeAction`. `newRequestErr` is the error of
`http.NewRequest(action.Method, action.URL, ...)` (`none` when the request is
built) and `doResult` the result of `client.Do(req)`. -/
def executeAction (c : Codec) (s : State) (action : Action)
    (newRequestErr : Option GoString) (doResult : Except GoString HTTPResponse)
    (now : Time) : State × ExecResult :=
  match newRequestErr with
  | some err =>
    (logError s now action.ID (lit "Request creation error: " ++ err),
      { success := false, logMsg := lit "", err := some err })
  | none =>
    match doResult with
    | .error err =>
      let logMsg := lit "Request failed: " ++ err
      (logTrigger c s now action.ID false logMsg,
        { success := false, logMsg := logMsg, err := some err })
    | .ok resp =>
      let logMsg := lit "Status: " ++ resp.Status
      let success := decide (resp.StatusCode ≥ 200) && decide (resp.StatusCode < 300)
      (logTrigger c s now action.ID success logMsg,
        { success := success, logMsg := logMsg, err := none })

/-- The verb `%v` of `fmt` applied to a `bool`. -/
def fmtBool (b : Bool) : GoString := if b then lit "true" else lit "false"

/-- The handler `triggerAction`. -/
def triggerAction (c : Codec) (s : State) (actionID : GoString)
    (newRequestErr : Option GoString) (doResult : Except GoString HTTPResponse)
    (now : Time) : State × Response :=
  match s.registry.lookup actionID with
  | none => (s, .error (lit "Action not found") 404)
  | some action =>
    let r := executeAction c s action newRequestErr doResult now
    match r.2.err with
    | some _ => (r.1, .error r.2.logMsg 500)
    | none =>
      (r.1, .text 200
        (lit "Action triggered: " ++ r.2.logMsg ++ lit " (Success: " ++ fmtBool r.2.success
          ++ lit ")"))

/-! ## The server as a sequential machine -/

/-- A mutating request to the registry: `POST /actions`, `PUT /actions/<id>`
or `DELETE /actions/<id>`, with what the handler reads from its environment. -/
inductive Request where
  | create (decoded : Except GoString Action) (rnd : Nat → Nat)
  | update (decoded : Except GoString Action) (actionID : GoString)
  | delete (actionID : GoString)

/-- The routing of `handleActionsCollection` and `handleSingleAction` for the
mutating methods. -/
def handle (c : Codec) (s : State) : Request → State × Response
  | .create decoded rnd => createAction c s decoded rnd
  | .update decoded actionID => updateAction c s decoded actionID
  | .delete actionID => deleteAction c s actionID

/-- The state after serving the requests one after the other. After a panic
of `createAction` the map is nil and the later requests, which the program
keeps waiting, leave the state as it is here too. -/
def run (c : Codec) (s : State) (reqs : List Request) : State :=
  reqs.foldl (fun s r => (handle c s r).1) s

/-- An empty registry: the map made by `make(map[string]Action)` at start-up,
or the nil map. -/
def emptyRegistry (isNil : Bool) : Option ActionMap :=
  if isNil then none else some ∅

/-! ## Predicates on the registry -/

/-- No two entries of the registry carry the same name. -/
def NamesUnique (m : ActionMap) : Prop :=
  m.entries.Pairwise fun e f => e.2.Name ≠ f.2.Name

/-- Every action is stored under its own `ID`. -/
def KeysMatchIDs (m : ActionMap) : Prop :=
  ∀ e ∈ m.entries, e.2.ID = e.1

instance (m : ActionMap) : Decidable (NamesUnique m) := by
  unfold NamesUnique; infer_instance

instance (m : ActionMap) : Decidable (KeysMatchIDs m) := by
  unfold KeysMatchIDs; infer_instance

/-- The invariant of the registry: ids match keys and names are unique. -/
def Inv (m : ActionMap) : Prop :=
  KeysMatchIDs m ∧ NamesUnique m

instance (m : ActionMap) : Decidable (Inv m) := by
  unfold Inv; infer_instance

/-- The number of stored actions called `name`. -/
def countNamed (m : ActionMap) (name : GoString) : Nat :=
  m.entries.countP fun e => e.2.Name == name

/-- The value of a lowercase hexadecimal digit. -/
def hexValue (b : Nat) : Option Nat :=
  if b ∈ hextable then some (hextable.indexOf b) else none

/-- The bytes that a string of lowercase hexadecimal digits denotes, two
digits per byte, high digit first. -/
def hexDecode : GoString → Option (List Nat)
  | [] => some []
  | [_] => none
  | hi :: lo :: rest =>
    match hexValue hi, hexValue lo, hexDecode rest with
    | some h, some l, some bytes => some ((16 * h + l) :: bytes)
    | _, _, _ => none

/-! ## Concurrent calls of `createAction`

Each request is served by its own goroutine. A call of `createAction` enters
three critical sections, one after the other: the name loop under `actionsMu`
(lines 432-440), the insertion under `actionsMu` (lines 453-455) and the write
of `saveToFile` under `dataMu`. What it does outside them (decoding the body,
the url test, the default method, `generateID`) touches only its own
variables and is joined to the section that follows or precedes it. A run of
several calls is an interleaving of these sections.

`saveToFile` reads `actions` and `logs` holding only `dataMu`, so in the
program its section can overlap the insertion of another call, which holds
`actionsMu`: an unsynchronised read of a map that is being written. Runs in
which that happens are not among the interleavings described here, so nothing
is claimed for all runs of the program; the schedules used below have every
insertion before the first `saveToFile`. -/

/-- One call of `createAction`: the result of decoding its request body and
the random source its `generateID` reads. -/
structure CreateCall where
  decoded : Except GoString Action
  rnd : Nat → Nat

/-- Where a call of `createAction` stands: before the name loop, before the
insertion of the prepared `action`, before `saveToFile`, or returned with the
response `r`. -/
inductive CreatePhase where
  | check
  | insert (action : Action)
  | save (action : Action)
  | finished (r : Response)
  deriving DecidableEq

/-- The next critical section of a call of `createAction`, run on the shared
state `s`. -/
def createStep (c : Codec) (s : State) (call : CreateCall) :
    CreatePhase → State × CreatePhase
  | .check =>
    match call.decoded with
    | .error err => (s, .finished (.error err 400))
    | .ok action =>
      if nameTaken s.registry action.Name then
        (s, .finished (.error (lit "Action name must be unique") 400))
      else if action.URL = lit "" then
        (s, .finished (.error (lit "URL is required") 400))
      else
        (s, .insert (prepare action call.rnd))
  | .insert action =>
    match store s action.ID action with
    | none => (s, .finished (.panicked (lit "assignment to entry in nil map")))
    | some s => (s, .save action)
  | .save action => (saveToFile c s, .finished (.json action))
  | .finished r => (s, .finished r)

/-- The shared state together with the phase of every call. -/
abbrev Config := State × List CreatePhase

/-- The scheduler lets call number `i` run its next critical section. -/
def stepAt (c : Codec) (calls : List CreateCall) (cfg : Config) (i : Nat) : Config :=
  match calls[i]?, cfg.2[i]? with
  | some call, some phase =>
    ((createStep c cfg.1 call phase).1, cfg.2.set i (createStep c cfg.1 call phase).2)
  | _, _ => cfg

/-- The configuration reached from the state `s`, with every call at its
beginning, when the scheduler picks the calls in the order `schedule`. -/
def runSchedule (c : Codec) (calls : List CreateCall) (s : State) (schedule : List Nat) :
    Config :=
  schedule.foldl (stepAt c calls) (s, calls.map fun _ => CreatePhase.check)

/-- Whether a call has returned with `respondJSON(w, action)`. -/
def succeeded : CreatePhase → Bool
  | .finished (.json _) => true
  | _ => false

/-- The name a call asks for. -/
def requestedName (call : CreateCall) : GoString :=
  match call.decoded with
  | .ok action => action.Name
  | .error _ => lit ""

/-! ## The codec of `encoding/json` for the snapshot

Modelled from the documentation and behaviour of the Go standard library
(packages `unicode/utf8`, `encoding/json`, `time`), which is not part of the
repository. `marshalSnapshot` is the text `json.MarshalIndent(data, "", "  ")`
writes for a `PersistentData`, as Go 1.22 and later write it. `unmarshalText`
is `json.Unmarshal` into a zero `PersistentData` for every document whose
keys are the tagged names of the three structs in the letter case of the
tags, in any order and with any JSON white space; it gives an error for
every text that `json.Unmarshal` rejects. Where Go accepts more (keys that no
field is tagged with, which it skips; keys in another letter case; a second
`logs` array decoded over the first; timestamps that only the general parser
of package `time` reads) the model gives an error. `MarshalIndent` writes none
of these. -/

/-! ### UTF-8 as `unicode/utf8` decodes it -/

/-- Whether `b` is a continuation byte `10xxxxxx`. -/
def isCont (b : Nat) : Bool :=
  decide (0x80 ≤ b) && decide (b ≤ 0xBF)

/-- The function `utf8.DecodeRune` on a non-empty string: the first rune and
the bytes after it, or `none` and the bytes after the first one when the
string does not start with a valid encoding (`RuneError` of width 1). -/
def decodeRune : List Nat → Option Char × List Nat
  | [] => (none, [])
  | b0 :: rest =>
    if b0 < 0x80 then (some (Char.ofNat b0), rest)
    else if 0xC2 ≤ b0 ∧ b0 ≤ 0xDF then
      match rest with
      | b1 :: r =>
        if isCont b1 then (some (Char.ofNat ((b0 - 0xC0) * 64 + (b1 - 0x80))), r)
        else (none, rest)
      | [] => (none, rest)
    else if 0xE0 ≤ b0 ∧ b0 ≤ 0xEF then
      match rest with
      | b1 :: b2 :: r =>
        if (if b0 = 0xE0 then 0xA0 else 0x80) ≤ b1 ∧
            b1 ≤ (if b0 = 0xED then 0x9F else 0xBF) ∧ isCont b2 = true then
          (some (Char.ofNat ((b0 - 0xE0) * 4096 + (b1 - 0x80) * 64 + (b2 - 0x80))), r)
        else (none, rest)
      | _ => (none, rest)
    else if 0xF0 ≤ b0 ∧ b0 ≤ 0xF4 then
      match rest with
      | b1 :: b2 :: b3 :: r =>
        if (if b0 = 0xF0 then 0x90 else 0x80) ≤ b1 ∧
            b1 ≤ (if b0 = 0xF4 then 0x8F else 0xBF) ∧
            isCont b2 = true ∧ isCont b3 = true then
          (some (Char.ofNat
            ((b0 - 0xF0) * 262144 + (b1 - 0x80) * 4096 + (b2 - 0x80) * 64 + (b3 - 0x80))), r)
        else (none, rest)
      | _ => (none, rest)
    else (none, rest)

/-- The runes of a string as `for _, r := range s` meets them, `none` for
each byte that is not part of a valid encoding; `fuel` bounds their number. -/
def decodeUnitsAux : Nat → List Nat → List (Option Char)
  | 0, _ => []
  | _ + 1, [] => []
  | fuel + 1, b :: rest =>
    (decodeRune (b :: rest)).1 :: decodeUnitsAux fuel (decodeRune (b :: rest)).2

/-- The runes of a string, `none` for each invalid byte. -/
def decodeUnits (s : GoString) : List (Option Char) :=
  decodeUnitsAux s.length s

/-- The character `U+FFFD`, `unicode.ReplacementChar`. -/
def replacementChar : Char := Char.ofNat 0xFFFD

/-- The text of a string, with `U+FFFD` for each invalid byte. -/
def toText (s : GoString) : List Char :=
  (decodeUnits s).map fun u => u.getD replacementChar

/-- A string is valid UTF-8 when it is the encoding of some text. -/
def ValidUTF8 (s : GoString) : Prop :=
  ∃ text : List Char, s = utf8Encode text

/-! ### JSON strings -/

/-- A lowercase hexadecimal digit. -/
def hexDigit (n : Nat) : Char :=
  ("0123456789abcdef".toList).getD n '0'

/-- How the encoder writes one character inside a string: the short escapes,
`\u00XX` for the other control characters and for `<`, `>`, `&`, a
four-digit escape for the two line separators, and the character itself
otherwise. -/
def escapeChar (c : Char) : List Char :=
  if c = '"' then ['\\', '"']
  else if c = '\\' then ['\\', '\\']
  else if c = '\n' then ['\\', 'n']
  else if c = '\r' then ['\\', 'r']
  else if c = '\t' then ['\\', 't']
  else if c.toNat = 8 then ['\\', 'b']
  else if c.toNat = 12 then ['\\', 'f']
  else if c.toNat < 0x20 ∨ c = '<' ∨ c = '>' ∨ c = '&' then
    ['\\', 'u', '0', '0', hexDigit (c.toNat / 16), hexDigit (c.toNat % 16)]
  else if c.toNat = 0x2028 ∨ c.toNat = 0x2029 then
    ['\\', 'u', '2', '0', '2', hexDigit (c.toNat % 16)]
  else [c]

/-- How the encoder writes one rune of a Go string: an invalid byte becomes
the escape of `U+FFFD`. -/
def escapeUnit : Option Char → List Char
  | none => ['\\', 'u', 'f', 'f', 'f', 'd']
  | some c => escapeChar c

/-- A Go string as a JSON string. -/
def renderString (s : GoString) : List Char :=
  '"' :: ((decodeUnits s).flatMap escapeUnit ++ ['"'])

/-- The value of a hexadecimal digit of either case. -/
def hexVal (c : Char) : Option Nat :=
  if '0' ≤ c ∧ c ≤ '9' then some (c.toNat - 48)
  else if 'a' ≤ c ∧ c ≤ 'f' then some (c.toNat - 87)
  else if 'A' ≤ c ∧ c ≤ 'F' then some (c.toNat - 55)
  else none

/-- The function `getu4` past its `\u`: the number written by four
hexadecimal digits. -/
def parseHex4 : List Char → Option (Nat × List Char)
  | a :: b :: c :: d :: rest =>
    match hexVal a, hexVal b, hexVal c, hexVal d with
    | some x, some y, some z, some w => some (4096 * x + 256 * y + 16 * z + w, rest)
    | _, _, _, _ => none
  | _ => none

/-- The character a one-letter escape stands for. -/
def unescapeLetter (c : Char) : Option Char :=
  if c = '"' then some '"'
  else if c = '\\' then some '\\'
  else if c = '/' then some '/'
  else if c = 'b' then some (Char.ofNat 8)
  else if c = 'f' then some (Char.ofNat 12)
  else if c = 'n' then some '\n'
  else if c = 'r' then some '\r'
  else if c = 't' then some '\t'
  else none

/-- The low half of a surrogate pair written as `\uXXXX` at the head of the
input, if there is one. -/
def lowSurrogate (input : List Char) : Option (Nat × List Char) :=
  match input with
  | a :: b :: rest =>
    if a = '\\' ∧ b = 'u' then
      match parseHex4 rest with
      | some (lo, rest') => if 0xDC00 ≤ lo ∧ lo < 0xE000 then some (lo, rest') else none
      | none => none
    else none
  | _ => none

/-- The character written by `\uXXXX` with value `n`, and the input after
it: a high surrogate followed by a low one gives the character of the pair,
any other surrogate gives `U+FFFD`. -/
def unicodeEscape (n : Nat) (rest : List Char) : Char × List Char :=
  if 0xD800 ≤ n ∧ n < 0xE000 then
    if n < 0xDC00 then
      match lowSurrogate rest with
      | some (lo, rest') => (Char.ofNat (0x10000 + (n - 0xD800) * 1024 + (lo - 0xDC00)), rest')
      | none => (replacementChar, rest)
    else (replacementChar, rest)
  else (Char.ofNat n, rest)

/-- The text of a JSON string from just after its opening quote, and the
input after its closing quote. A control character inside the string, an
unknown escape and a missing closing quote are errors. -/
def parseStringBody : Nat → List Char → Option (List Char × List Char)
  | 0, _ => none
  | _ + 1, [] => none
  | fuel + 1, c :: rest =>
    if c = '"' then some ([], rest)
    else if c = '\\' then
      match rest with
      | [] => none
      | e :: rest' =>
        if e = 'u' then
          match parseHex4 rest' with
          | none => none
          | some (n, rest'') =>
            match parseStringBody fuel (unicodeEscape n rest'').2 with
            | none => none
            | some (text, out) => some ((unicodeEscape n rest'').1 :: text, out)
        else
          match unescapeLetter e with
          | none => none
          | some ch =>
            match parseStringBody fuel rest' with
            | none => none
            | some (text, out) => some (ch :: text, out)
    else if c.toNat < 0x20 then none
    else
      match parseStringBody fuel rest with
      | none => none
      | some (text, out) => some (c :: text, out)

/-- A JSON string at the head of the input, as the Go string it decodes to. -/
def parseString (input : List Char) : Option (GoString × List Char) :=
  match input with
  | [] => none
  | c :: rest =>
    if c = '"' then
      match parseStringBody rest.length rest with
      | none => none
      | some (text, out) => some (utf8Encode text, out)
    else none

/-! ### White space and literals -/

/-- JSON white space. -/
def isSpace (c : Char) : Bool :=
  c = ' ' || c = '\t' || c = '\r' || c = '\n'

/-- The input after its leading white space. -/
def skipSpace : List Char → List Char
  | [] => []
  | c :: rest => if isSpace c then skipSpace rest else c :: rest

/-- The input after the token `tok`, when it starts with it. -/
def expect : List Char → List Char → Option (List Char)
  | [], input => some input
  | _ :: _, [] => none
  | t :: ts, c :: rest => if t = c then expect ts rest else none

/-- The literal `null`. -/
def nullTok : List Char := ['n', 'u', 'l', 'l']

/-- The literal `true`. -/
def trueTok : List Char := ['t', 'r', 'u', 'e']

/-- The literal `false`. -/
def falseTok : List Char := ['f', 'a', 'l', 's', 'e']

/-! ### Objects and arrays -/

/-- The members of an object from the first key on. `field key acc input`
decodes the value of `key` at the head of `input` into `acc`. -/
def parseMembers {α : Type} (field : GoString → α → List Char → Option (α × List Char)) :
    Nat → α → List Char → Option (α × List Char)
  | 0, _, _ => none
  | fuel + 1, acc, input =>
    match parseString input with
    | none => none
    | some (key, r1) =>
      match expect [':'] (skipSpace r1) with
      | none => none
      | some r2 =>
        match field key acc (skipSpace r2) with
        | none => none
        | some (acc', r3) =>
          match skipSpace r3 with
          | [] => none
          | d :: r4 =>
            if d = ',' then parseMembers field fuel acc' (skipSpace r4)
            else if d = '}' then some (acc', r4)
            else none

/-- An object at the head of the input, decoded into `init` member by
member. -/
def parseObject {α : Type} (field : GoString → α → List Char → Option (α × List Char))
    (init : α) (input : List Char) : Option (α × List Char) :=
  match input with
  | [] => none
  | c :: rest =>
    if c = '{' then
      match skipSpace rest with
      | [] => none
      | d :: r =>
        if d = '}' then some (init, r)
        else parseMembers field (d :: r).length init (d :: r)
    else none

/-- The elements of an array from the first element on. -/
def parseElements {β : Type} (elem : List Char → Option (β × List Char)) :
    Nat → List Char → Option (List β × List Char)
  | 0, _ => none
  | fuel + 1, input =>
    match elem input with
    | none => none
    | some (x, r1) =>
      match skipSpace r1 with
      | [] => none
      | d :: r2 =>
        if d = ',' then
          match parseElements elem fuel (skipSpace r2) with
          | none => none
          | some (xs, out) => some (x :: xs, out)
        else if d = ']' then some ([x], r2)
        else none

/-- An array at the head of the input. -/
def parseArray {β : Type} (elem : List Char → Option (β × List Char))
    (input : List Char) : Option (List β × List Char) :=
  match input with
  | [] => none
  | c :: rest =>
    if c = '[' then
      match skipSpace rest with
      | [] => none
      | d :: r =>
        if d = ']' then some ([], r)
        else parseElements elem (d :: r).length (d :: r)
    else none

/-- A new line and the indentation of `depth` levels, two spaces each. -/
def indent (depth : Nat) : List Char :=
  '\n' :: List.replicate (2 * depth) ' '

/-- One member of an indented object: its key, a colon, a space, its value. -/
def renderMember (depth : Nat) (m : GoString × List Char) : List Char :=
  indent (depth + 1) ++ (renderString m.1 ++ (':' :: ' ' :: m.2))

/-- An object whose members are written at `depth + 1`; `{}` when empty. -/
def renderObject (depth : Nat) : List (GoString × List Char) → List Char
  | [] => ['{', '}']
  | m :: ms =>
    '{' :: (renderMember depth m ++
      ((ms.flatMap fun m' => ',' :: renderMember depth m') ++ (indent depth ++ ['}'])))

/-- An array whose elements are written at `depth + 1`; `[]` when empty. -/
def renderArray (depth : Nat) : List (List Char) → List Char
  | [] => ['[', ']']
  | x :: xs =>
    '[' :: (indent (depth + 1) ++ (x ++
      ((xs.flatMap fun x' => ',' :: (indent (depth + 1) ++ x')) ++ (indent depth ++ [']']))))

/-! ### Timestamps: `time.Time` as RFC 3339 text -/

/-- A decimal digit. -/
def digitChar (n : Nat) : Char :=
  Char.ofNat (48 + n % 10)

/-- A number written with two digits. -/
def twoDigits (n : Nat) : List Char :=
  [digitChar (n / 10), digitChar n]

/-- A number written with four digits. -/
def fourDigits (n : Nat) : List Char :=
  [digitChar (n / 1000), digitChar (n / 100), digitChar (n / 10), digitChar n]

/-- The nine decimal digits of a count of nanoseconds, highest first. -/
def nineDigits (n : Nat) : List Nat :=
  [n / 100000000 % 10, n / 10000000 % 10, n / 1000000 % 10, n / 100000 % 10,
    n / 10000 % 10, n / 1000 % 10, n / 100 % 10, n / 10 % 10, n % 10]

/-- A digit list without its trailing zeros. -/
def trimZeros (ds : List Nat) : List Nat :=
  (ds.reverse.dropWhile fun d => d == 0).reverse

/-- The fraction of a second of the layout `.999999999`: nothing when it is
zero, otherwise a point and the digits without trailing zeros. -/
def formatFraction (ns : Nat) : List Char :=
  if ns = 0 then [] else '.' :: (trimZeros (nineDigits ns)).map digitChar

/-- The zone of the layout `Z07:00`. -/
def formatZone (zone : Int) : List Char :=
  if zone = 0 then ['Z']
  else
    (if zone < 0 then '-' else '+') ::
      (twoDigits (zone.natAbs / 60) ++ (':' :: twoDigits (zone.natAbs % 60)))

/-- The layout `time.RFC3339Nano`. -/
def formatTime (t : Time) : List Char :=
  fourDigits t.year ++ ('-' :: (twoDigits t.month ++ ('-' :: (twoDigits t.day ++
    ('T' :: (twoDigits t.hour ++ (':' :: (twoDigits t.minute ++ (':' :: (twoDigits t.second ++
      (formatFraction t.nanosecond ++ formatZone t.zone)))))))))))

/-- Whether `Time.MarshalJSON` accepts the time: the year has four digits and
the zone hour is below 24. -/
def timeMarshals (t : Time) : Bool :=
  decide (t.year ≤ 9999) && decide (t.zone.natAbs < 1440)

/-- The value of a decimal digit. -/
def digitVal (c : Char) : Option Nat :=
  if '0' ≤ c ∧ c ≤ '9' then some (c.toNat - 48) else none

/-- The number written by two digits. -/
def parseTwo (a b : Char) : Option Nat :=
  match digitVal a, digitVal b with
  | some x, some y => some (10 * x + y)
  | _, _ => none

/-- The number written by four digits. -/
def parseFour (a b c d : Char) : Option Nat :=
  match digitVal a, digitVal b, digitVal c, digitVal d with
  | some x, some y, some z, some w => some (1000 * x + 100 * y + 10 * z + w)
  | _, _, _, _ => none

/-- The leading decimal digits of the input, and the input after them. -/
def takeDigits : List Char → List Nat × List Char
  | [] => ([], [])
  | c :: rest =>
    match digitVal c with
    | some d => (d :: (takeDigits rest).1, (takeDigits rest).2)
    | none => ([], c :: rest)

/-- The number written by a digit list. -/
def digitsValue (ds : List Nat) : Nat :=
  ds.foldl (fun acc d => 10 * acc + d) 0

/-- The function `parseNanoseconds`: at most nine digits after the point,
scaled to nanoseconds. -/
def nanosOf (ds : List Nat) : Nat :=
  digitsValue (ds.take 9) * 10 ^ (9 - (ds.take 9).length)

/-- The optional fraction of a second: a point followed by at least one
digit. -/
def parseFraction (input : List Char) : Nat × List Char :=
  match input with
  | c :: d :: rest =>
    if c = '.' ∧ (digitVal d).isSome then
      (nanosOf (takeDigits (d :: rest)).1, (takeDigits (d :: rest)).2)
    else (0, input)
  | _ => (0, input)

/-- The zone: `Z`, or a sign, two digits below 24, a colon and two digits
below 60, and nothing after it. -/
def parseZone (input : List Char) : Option Int :=
  match input with
  | [z] => if z = 'Z' then some 0 else none
  | [sign, h1, h2, colon, m1, m2] =>
    match parseTwo h1 h2, parseTwo m1 m2 with
    | some hr, some mm =>
      if hr ≤ 23 ∧ mm ≤ 59 ∧ colon = ':' then
        if sign = '+' then some (Int.ofNat (hr * 60 + mm))
        else if sign = '-' then some (- Int.ofNat (hr * 60 + mm))
        else none
      else none
    | _, _ => none
  | _ => none

/-- The function `daysIn` of package `time`. -/
def daysIn (month year : Nat) : Nat :=
  if month = 2 then
    if year % 4 = 0 ∧ (year % 100 ≠ 0 ∨ year % 400 = 0) then 29 else 28
  else if month = 4 ∨ month = 6 ∨ month = 9 ∨ month = 11 then 30
  else 31

/-- The function `parseRFC3339` of package `time` on the text between the
quotes. -/
def parseRFC3339 (text : List Char) : Option Time :=
  match text with
  | y1 :: y2 :: y3 :: y4 :: c1 :: m1 :: m2 :: c2 :: d1 :: d2 :: c3 :: h1 :: h2 :: c4 ::
      n1 :: n2 :: c5 :: s1 :: s2 :: rest =>
    match parseFour y1 y2 y3 y4, parseTwo m1 m2, parseTwo d1 d2, parseTwo h1 h2,
        parseTwo n1 n2, parseTwo s1 s2 with
    | some year, some month, some day, some hour, some minute, some second =>
      if 1 ≤ month ∧ month ≤ 12 ∧ 1 ≤ day ∧ day ≤ daysIn month year ∧ hour ≤ 23 ∧
          minute ≤ 59 ∧ second ≤ 59 ∧
          c1 = '-' ∧ c2 = '-' ∧ c3 = 'T' ∧ c4 = ':' ∧ c5 = ':' then
        match parseZone (parseFraction rest).2 with
        | some zone =>
          some { year := year, month := month, day := day, hour := hour, minute := minute,
                 second := second, nanosecond := (parseFraction rest).1, zone := zone }
        | none => none
      else none
    | _, _, _, _, _, _ => none
  | _ => none

/-- The raw text of a JSON string without escapes, from just after its
opening quote, and the input after its closing quote. -/
def takeRaw : List Char → Option (List Char × List Char)
  | [] => none
  | c :: rest =>
    if c = '"' then some ([], rest)
    else if c = '\\' ∨ c.toNat < 0x20 then none
    else
      match takeRaw rest with
      | none => none
      | some (text, out) => some (c :: text, out)

/-- A time is a date of the calendar and a time of day, with a year of four
digits and a zone hour below 24. -/
def Time.Valid (t : Time) : Prop :=
  t.year ≤ 9999 ∧ 1 ≤ t.month ∧ t.month ≤ 12 ∧ 1 ≤ t.day ∧ t.day ≤ daysIn t.month t.year ∧
    t.hour ≤ 23 ∧ t.minute ≤ 59 ∧ t.second ≤ 59 ∧ t.nanosecond ≤ 999999999 ∧
    t.zone.natAbs < 1440

instance (t : Time) : Decidable t.Valid := by
  unfold Time.Valid; infer_instance

/-! ### The snapshot -/

/-- The order in which `encoding/json` writes the keys of a map: by their
bytes. -/
def bytesLE : List Nat → List Nat → Bool
  | [], _ => true
  | _ :: _, [] => false
  | a :: as, b :: bs => decide (a < b) || (a == b && bytesLE as bs)

/-- The entries of a map in the order of their keys. -/
def sortEntries {V : Type} (entries : List (Sigma fun _ : GoString => V)) :
    List (Sigma fun _ : GoString => V) :=
  entries.insertionSort fun e f => bytesLE e.1 f.1 = true

/-- A `map[string]string` as JSON: `null` for the nil map. -/
def renderHeaders (depth : Nat) (h : HeaderMap) : List Char :=
  match h with
  | none => nullTok
  | some m => renderObject depth ((sortEntries m.entries).map fun e => (e.1, renderString e.2))

/-- An `Action` as JSON, its members in the order of the struct's fields
under the names of their tags. -/
def renderAction (depth : Nat) (a : Action) : List Char :=
  renderObject depth
    [(lit "id", renderString a.ID),
     (lit "name", renderString a.Name),
     (lit "url", renderString a.URL),
     (lit "method", renderString a.Method),
     (lit "headers", renderHeaders (depth + 1) a.Headers),
     (lit "body", renderString a.Body)]

/-- A `LogEntry` as JSON. -/
def renderLogEntry (depth : Nat) (e : LogEntry) : List Char :=
  renderObject depth
    [(lit "timestamp", '"' :: (formatTime e.Timestamp ++ ['"'])),
     (lit "action_id", renderString e.ActionID),
     (lit "success", if e.Success then trueTok else falseTok),
     (lit "response", renderString e.Response)]

/-- The map `actions` as JSON: `null` for the nil map. -/
def renderActions (depth : Nat) (actions : Option ActionMap) : List Char :=
  match actions with
  | none => nullTok
  | some m =>
    renderObject depth ((sortEntries m.entries).map fun e => (e.1, renderAction (depth + 1) e.2))

/-- The slice `logs` as JSON; the empty list is the nil slice, written
`null`. -/
def renderLogs (depth : Nat) (logs : List LogEntry) : List Char :=
  match logs with
  | [] => nullTok
  | _ => renderArray depth (logs.map (renderLogEntry (depth + 1)))

/-- The text of `json.MarshalIndent(data, "", "  ")`. -/
def renderData (d : PersistentData) : List Char :=
  renderObject 0
    [(lit "actions", renderActions 1 d.Actions),
     (lit "logs", renderLogs 1 d.Logs)]

/-- A string value, or `none` for `null`, which leaves the field as it is. -/
def parseStringValue (input : List Char) : Option (Option GoString × List Char) :=
  match expect nullTok input with
  | some rest => some (none, rest)
  | none =>
    match parseString input with
    | none => none
    | some (s, rest) => some (some s, rest)

/-- One entry of a `map[string]string`. -/
def headerMember (key : GoString) (acc : AList fun _ : GoString => GoString)
    (input : List Char) : Option ((AList fun _ : GoString => GoString) × List Char) :=
  match parseStringValue input with
  | none => none
  | some (v, rest) => some (acc.insert key (v.getD []), rest)

/-- The value of the field `headers`: `null` gives the nil map, an object is
decoded into the map the field holds, or into a new one. -/
def parseHeaders (old : HeaderMap) (input : List Char) : Option (HeaderMap × List Char) :=
  match expect nullTok input with
  | some rest => some (none, rest)
  | none =>
    match parseObject headerMember (old.getD ∅) input with
    | none => none
    | some (m, rest) => some (some m, rest)

/-- The zero value of `Action`. -/
def zeroAction : Action :=
  { ID := [], Name := [], URL := [], Method := [], Headers := none, Body := [] }

/-- One member of an `Action` object, by the tag of its field. -/
def actionField (key : GoString) (acc : Action) (input : List Char) :
    Option (Action × List Char) :=
  if key = lit "id" then
    match parseStringValue input with
    | none => none
    | some (v, rest) => some ({ acc with ID := v.getD acc.ID }, rest)
  else if key = lit "name" then
    match parseStringValue input with
    | none => none
    | some (v, rest) => some ({ acc with Name := v.getD acc.Name }, rest)
  else if key = lit "url" then
    match parseStringValue input with
    | none => none
    | some (v, rest) => some ({ acc with URL := v.getD acc.URL }, rest)
  else if key = lit "method" then
    match parseStringValue input with
    | none => none
    | some (v, rest) => some ({ acc with Method := v.getD acc.Method }, rest)
  else if key = lit "headers" then
    match parseHeaders acc.Headers input with
    | none => none
    | some (h, rest) => some ({ acc with Headers := h }, rest)
  else if key = lit "body" then
    match parseStringValue input with
    | none => none
    | some (v, rest) => some ({ acc with Body := v.getD acc.Body }, rest)
  else none

/-- The value of one key of the map `actions`: `null` gives the zero action. -/
def parseActionValue (input : List Char) : Option (Action × List Char) :=
  match expect nullTok input with
  | some rest => some (zeroAction, rest)
  | none => parseObject actionField zeroAction input

/-- One entry of the map `actions`. -/
def actionsMember (key : GoString) (acc : ActionMap) (input : List Char) :
    Option (ActionMap × List Char) :=
  match parseActionValue input with
  | none => none
  | some (a, rest) => some (acc.insert key a, rest)

/-- The value of the field `actions`. -/
def parseActions (old : Option ActionMap) (input : List Char) :
    Option (Option ActionMap × List Char) :=
  match expect nullTok input with
  | some rest => some (none, rest)
  | none =>
    match parseObject actionsMember (old.getD ∅) input with
    | none => none
    | some (m, rest) => some (some m, rest)

/-- The zero value of `time.Time`: the first instant of year 1, in UTC. -/
def zeroTime : Time :=
  { year := 1, month := 1, day := 1, hour := 0, minute := 0, second := 0, nanosecond := 0,
    zone := 0 }

/-- The zero value of `LogEntry`. -/
def zeroEntry : LogEntry :=
  { Timestamp := zeroTime, ActionID := [], Success := false, Response := [] }

/-- The method `Time.UnmarshalJSON`: `null` leaves the time as it is, a string
is read by `parseRFC3339` without unescaping. -/
def parseTimeValue (input : List Char) : Option (Option Time × List Char) :=
  match expect nullTok input with
  | some rest => some (none, rest)
  | none =>
    match input with
    | [] => none
    | c :: rest =>
      if c = '"' then
        match takeRaw rest with
        | none => none
        | some (text, out) =>
          match parseRFC3339 text with
          | none => none
          | some t => some (some t, out)
      else none

/-- A boolean value, or `none` for `null`. -/
def parseBoolValue (input : List Char) : Option (Option Bool × List Char) :=
  match expect nullTok input with
  | some rest => some (none, rest)
  | none =>
    match expect trueTok input with
    | some rest => some (some true, rest)
    | none =>
      match expect falseTok input with
      | some rest => some (some false, rest)
      | none => none

/-- One member of a `LogEntry` object, by the tag of its field. -/
def logField (key : GoString) (acc : LogEntry) (input : List Char) :
    Option (LogEntry × List Char) :=
  if key = lit "timestamp" then
    match parseTimeValue input with
    | none => none
    | some (v, rest) => some ({ acc with Timestamp := v.getD acc.Timestamp }, rest)
  else if key = lit "action_id" then
    match parseStringValue input with
    | none => none
    | some (v, rest) => some ({ acc with ActionID := v.getD acc.ActionID }, rest)
  else if key = lit "success" then
    match parseBoolValue input with
    | none => none
    | some (v, rest) => some ({ acc with Success := v.getD acc.Success }, rest)
  else if key = lit "response" then
    match parseStringValue input with
    | none => none
    | some (v, rest) => some ({ acc with Response := v.getD acc.Response }, rest)
  else none

/-- One element of the array `logs`: `null` gives the zero entry. -/
def parseLogEntry (input : List Char) : Option (LogEntry × List Char) :=
  match expect nullTok input with
  | some rest => some (zeroEntry, rest)
  | none => parseObject logField zeroEntry input

/-- The value of the field `logs`. -/
def parseLogs (input : List Char) : Option (List LogEntry × List Char) :=
  match expect nullTok input with
  | some rest => some ([], rest)
  | none => parseArray parseLogEntry input

/-- One member of the snapshot object, by the tag of its field. -/
def dataField (key : GoString) (acc : PersistentData) (input : List Char) :
    Option (PersistentData × List Char) :=
  if key = lit "actions" then
    match parseActions acc.Actions input with
    | none => none
    | some (m, rest) => some ({ acc with Actions := m }, rest)
  else if key = lit "logs" then
    match parseLogs input with
    | none => none
    | some (logs, rest) => some ({ acc with Logs := logs }, rest)
  else none

/-- The zero value of `PersistentData`, into which `loadFromFile` decodes. -/
def zeroData : PersistentData :=
  { Actions := none, Logs := [] }

/-- The call `json.Unmarshal(file, &data)` on the text of the file: `null`
leaves `data` zero, an object is decoded member by member, and only white
space may follow. -/
def unmarshalText (input : List Char) : Option PersistentData :=
  match expect nullTok (skipSpace input) with
  | some rest => if skipSpace rest = [] then some zeroData else none
  | none =>
    match parseObject dataField zeroData (skipSpace input) with
    | none => none
    | some (d, rest) => if skipSpace rest = [] then some d else none

/-- The text `json.MarshalIndent` writes for the snapshot, as bytes, or the
error of `Time.MarshalJSON`. -/
def marshalSnapshot (d : PersistentData) : Except GoString GoString :=
  if d.Logs.all fun e => timeMarshals e.Timestamp then
    .ok (utf8Encode (renderData d))
  else
    .error (lit "json: error calling MarshalJSON for type time.Time")

/-- The call `json.Unmarshal(file, &data)`. Bytes that are not valid UTF-8
are read as `U+FFFD`, which inside a string is what the decoder puts and
outside a string is a syntax error. -/
def unmarshalSnapshot (file : GoString) : Except GoString PersistentData :=
  match unmarshalText (toText file) with
  | some d => .ok d
  | none => .error (lit "json: cannot unmarshal the snapshot")

/-- The codec of `encoding/json`. -/
def goJSON : Codec :=
  { marshalIndent := marshalSnapshot, unmarshal := unmarshalSnapshot }

/-! ## Reading back what the encoder wrote

Definitions used to state that the decoder reads back the text of the
encoder: the members of an object and the elements of an array together with
what the decoder does on each, the characters that end no token early, the
snapshots whose strings and times the encoder writes without loss, and the
value the decoder builds from the text of a map. -/

/-- What the decoder is to do with one member of an object: its key, the
text of its value, and the effect of the value on the result. -/
structure MemberSpec (α : Type) where
  key : GoString
  text : List Char
  update : α → α

/-- The member as the encoder is given it. -/
def MemberSpec.rendered {α : Type} (m : MemberSpec α) : GoString × List Char :=
  (m.key, m.text)

/-- The decoder reads the member: its key is valid, its text starts with a
character that is not white space, and `field` decodes the text. -/
def MemberSpec.ReadBy {α : Type} (m : MemberSpec α)
    (field : GoString → α → List Char → Option (α × List Char)) : Prop :=
  ValidUTF8 m.key ∧ (∃ c t, m.text = c :: t ∧ isSpace c = false) ∧
    ∀ acc tail, field m.key acc (m.text ++ tail) = some (m.update acc, tail)

/-- What the decoder is to do with one element of an array. -/
structure ElementSpec (β : Type) where
  text : List Char
  value : β

/-- The decoder reads the element: its text starts with a character that is
neither white space nor a closing bracket, and `elem` decodes the text. -/
def ElementSpec.ReadBy {β : Type} (x : ElementSpec β)
    (elem : List Char → Option (β × List Char)) : Prop :=
  (∃ c t, x.text = c :: t ∧ isSpace c = false ∧ c ≠ ']') ∧
    ∀ tail, elem (x.text ++ tail) = some (x.value, tail)

/-- A character that may stand in a JSON string as it is. -/
def SafeChar (c : Char) : Prop :=
  c ≠ '"' ∧ c ≠ '\\' ∧ ¬ c.toNat < 0x20

/-- The first character of a zone is not a digit and not a point. -/
def ZoneStart (c : Char) : Prop :=
  digitVal c = none ∧ c ≠ '.'

/-- The keys and values of a header map are valid UTF-8. -/
def ValidHeaders (h : HeaderMap) : Prop :=
  ∀ m, h = some m → ∀ e ∈ m.entries, ValidUTF8 e.1 ∧ ValidUTF8 e.2

/-- Every string of an action is valid UTF-8. -/
def ValidAction (a : Action) : Prop :=
  ValidUTF8 a.ID ∧ ValidUTF8 a.Name ∧ ValidUTF8 a.URL ∧ ValidUTF8 a.Method ∧
    ValidHeaders a.Headers ∧ ValidUTF8 a.Body

/-- The timestamp of a log entry is a valid time and its strings are valid
UTF-8. -/
def ValidEntry (e : LogEntry) : Prop :=
  e.Timestamp.Valid ∧ ValidUTF8 e.ActionID ∧ ValidUTF8 e.Response

/-- Every string of the snapshot is valid UTF-8 and every timestamp is a valid
time. -/
def ValidData (d : PersistentData) : Prop :=
  (∀ m, d.Actions = some m → ∀ e ∈ m.entries, ValidUTF8 e.1 ∧ ValidAction e.2) ∧
    ∀ e ∈ d.Logs, ValidEntry e

/-- The map that decoding builds from the entries the encoder wrote: they are
inserted one by one, in the order of their keys, each value as `f` gives it. -/
def rekey {V : Type} (f : V → V) (m : AList fun _ : GoString => V) :
    AList fun _ : GoString => V :=
  (sortEntries m.entries).foldl (fun acc e => acc.insert e.1 (f e.2)) ∅

/-- An action as it comes back from the snapshot: its header map is built
again. -/
def normAction (a : Action) : Action :=
  { a with Headers := a.Headers.map (rekey id) }

/-- The snapshot as it comes back from the file. -/
def normData (d : PersistentData) : PersistentData :=
  { Actions := d.Actions.map (rekey normAction), Logs := d.Logs }

/-- The header map after decoding the value written for `h` into a field that
holds `old`. -/
def mergeHeaders (old h : HeaderMap) : HeaderMap :=
  match h with
  | none => none
  | some m =>
    some ((sortEntries m.entries).foldl (fun acc e => acc.insert e.1 (id e.2)) (old.getD ∅))

/-- The members of an `Action` object and what each does to the action being
decoded. -/
def actionMembers (depth : Nat) (a : Action) : List (MemberSpec Action) :=
  [{ key := lit "id", text := renderString a.ID, update := fun acc => { acc with ID := a.ID } },
   { key := lit "name", text := renderString a.Name,
     update := fun acc => { acc with Name := a.Name } },
   { key := lit "url", text := renderString a.URL,
     update := fun acc => { acc with URL := a.URL } },
   { key := lit "method", text := renderString a.Method,
     update := fun acc => { acc with Method := a.Method } },
   { key := lit "headers", text := renderHeaders (depth + 1) a.Headers,
     update := fun acc => { acc with Headers := mergeHeaders acc.Headers a.Headers } },
   { key := lit "body", text := renderString a.Body,
     update := fun acc => { acc with Body := a.Body } }]

/-- The members of a `LogEntry` object and what each does to the entry being
decoded. -/
def logMembers (e : LogEntry) : List (MemberSpec LogEntry) :=
  [{ key := lit "timestamp", text := '"' :: (formatTime e.Timestamp ++ ['"']),
     update := fun acc => { acc with Timestamp := e.Timestamp } },
   { key := lit "action_id", text := renderString e.ActionID,
     update := fun acc => { acc with ActionID := e.ActionID } },
   { key := lit "success", text := if e.Success then trueTok else falseTok,
     update := fun acc => { acc with Success := e.Success } },
   { key := lit "response", text := renderString e.Response,
     update := fun acc => { acc with Response := e.Response } }]

/-- The map of actions after decoding the value written for `actions` into a
field that holds `old`. -/
def mergeActions (old actions : Option ActionMap) : Option ActionMap :=
  match actions with
  | none => none
  | some m =>
    some ((sortEntries m.entries).foldl (fun acc e => acc.insert e.1 (normAction e.2))
      (old.getD ∅))

/-- The two members of the snapshot object. -/
def dataMembers (d : PersistentData) : List (MemberSpec PersistentData) :=
  [{ key := lit "actions", text := renderActions 1 d.Actions,
     update := fun acc => { acc with Actions := mergeActions acc.Actions d.Actions } },
   { key := lit "logs", text := renderLogs 1 d.Logs,
     update := fun acc => { acc with Logs := d.Logs } }]

/-! ## Equality of maps

Two Go maps are the same map when they have the same keys with the same
values; the association lists that stand for them may list the entries in
another order. -/

/-- Two header maps hold the same headers: both are nil, or both give every
name the same value. -/
def SameHeaders (h h' : HeaderMap) : Prop :=
  Option.Rel (fun m m' => ∀ k, m.lookup k = m'.lookup k) h h'

/-- Two actions agree field for field. -/
def SameAction (a b : Action) : Prop :=
  a.ID = b.ID ∧ a.Name = b.Name ∧ a.URL = b.URL ∧ a.Method = b.Method ∧
    SameHeaders a.Headers b.Headers ∧ a.Body = b.Body

/-- Two values of `actions` hold the same action set: both are nil, or both
hold, under every id, nothing or actions that agree field for field. -/
def SameRegistry (m m' : Option ActionMap) : Prop :=
  Option.Rel (fun x y => ∀ id, Option.Rel SameAction (x.lookup id) (y.lookup id)) m m'

/-! ## Sample inputs

Concrete values at which the theorems below are instantiated. -/

/-- A stored action with every field set. -/
def pingAction : Action :=
  { ID := lit "00000000000000aa", Name := lit "Ping", URL := lit "http://x.invalid",
    Method := lit "GET", Headers := some (AList.singleton (lit "X-Token") (lit "t1")),
    Body := lit "payload" }

/-- A second stored action. -/
def pongAction : Action :=
  { ID := lit "00000000000000bb", Name := lit "Pong", URL := lit "http://y.invalid",
    Method := lit "POST", Headers := none, Body := lit "" }

/-- The clock reading `2023-11-14T22:13:20.12+01:00`. -/
def sampleTime : Time :=
  { year := 2023, month := 11, day := 14, hour := 22, minute := 13, second := 20,
    nanosecond := 120000000, zone := 60 }

/-- The clock one second later. -/
def laterTime : Time :=
  { sampleTime with second := 21 }

/-- A log entry of a failed dispatch of `pingAction`. -/
def pingEntry : LogEntry :=
  { Timestamp := sampleTime, ActionID := lit "00000000000000aa", Success := false,
    Response := lit "Request failed: no such host" }

/-- A snapshot holding the two actions and one log entry. -/
def sampleData : PersistentData :=
  { Actions := some ((AList.singleton (lit "00000000000000aa") pingAction).insert
      (lit "00000000000000bb") pongAction)
    Logs := [pingEntry] }

/-- A disk with no snapshot file, on which reads and writes succeed. -/
def emptyDisk : Disk :=
  { content := none, writeError := none, readError := false }

/-- A state holding the two sample actions and the sample log. -/
def sampleState : State :=
  { actions := sampleData.Actions, logs := sampleData.Logs, disk := emptyDisk }

/-- A random source returning the byte `171` (`0xab`) at every index. -/
def sampleRnd : Nat → Nat := fun _ => 171

/-- The state of a server that has just started with no snapshot file: the
map made by `make(map[string]Action)` and the nil slice of logs. -/
def freshState : State :=
  { actions := some ∅, logs := [], disk := emptyDisk }

/-- The state of a server that started on a snapshot file holding the empty
JSON object: `loadFromFile` has replaced the map made at start-up by the nil
map. -/
def emptyObjectState : State :=
  loadFromFile goJSON
    { freshState with disk := { emptyDisk with content := some (lit "\x7b\x7d") } }

/-- A create request for the unused name `Pang`; it carries the id of `Pong`
and an empty method. -/
def pangRequest : Action :=
  { pongAction with Name := lit "Pang", Method := lit "" }

/-- A state whose log holds one response that is not valid UTF-8: the status
line of the remote server ended in the byte `0xff`. -/
def rawStatusState : State :=
  { actions := some ∅
    logs := [{ Timestamp := sampleTime, ActionID := lit "00000000000000aa", Success := true,
               Response := lit "Status: 200 " ++ [0xff] }]
    disk := emptyDisk }

/-- A state whose log holds one entry stamped in the year 10000. -/
def farFutureState : State :=
  { actions := some ∅
    logs := [{ pingEntry with Timestamp := { sampleTime with year := 10000 } }]
    disk := emptyDisk }

/-- Two calls that ask for the same name `A`, with different non-empty urls
and different random bytes. -/
def sameNameCalls : List CreateCall :=
  [{ decoded := .ok { ID := lit "", Name := lit "A", URL := lit "http://e.com",
                      Method := lit "", Headers := none, Body := lit "" }
     rnd := fun _ => 1 },
   { decoded := .ok { ID := lit "", Name := lit "A", URL := lit "http://f.com",
                      Method := lit "", Headers := none, Body := lit "" }
     rnd := fun _ => 2 }]

/-! ## Basic facts -/

@[simp] theorem saveToFile_actions (c : Codec) (s : State) :
    (saveToFile c s).actions = s.actions := by
  unfold saveToFile
  split
  · rfl
  · split <;> rfl

@[simp] theorem saveToFile_logs (c : Codec) (s : State) :
    (saveToFile c s).logs = s.logs := by
  unfold saveToFile
  split
  · rfl
  · split <;> rfl

@[simp] theorem saveToFile_registry (c : Codec) (s : State) :
    (saveToFile c s).registry = s.registry := by
  unfold State.registry
  rw [saveToFile_actions]

/-- The assignment `actions[key] = action` goes through exactly when the map
is not nil, and then changes the map at `key` and nothing else. -/
theorem store_eq_some {s s' : State} {key : GoString} {action : Action}
    (h : store s key action = some s') :
    s.actions ≠ none ∧ s'.actions ≠ none ∧ s'.registry = s.registry.insert key action ∧
      s'.logs = s.logs ∧ s'.disk = s.disk := by
  unfold store at h
  cases hm : s.actions with
  | none => rw [hm] at h; cases h
  | some m =>
    rw [hm] at h
    cases h
    refine ⟨fun hn => Option.noConfusion hn, fun hn => Option.noConfusion hn, ?_, rfl, rfl⟩
    simp [State.registry, hm]

theorem store_eq_none {s : State} {key : GoString} {action : Action} :
    store s key action = none ↔ s.actions = none := by
  unfold store
  cases s.actions <;> simp

/-- An id that is found is found in a map that is not nil. -/
theorem actions_ne_none_of_lookup {s : State} {k : GoString} {a : Action}
    (h : s.registry.lookup k = some a) : s.actions ≠ none := by
  intro hn
  rw [State.registry, hn] at h
  cases h

theorem store_of_lookup {s : State} {k : GoString} {a : Action} (key : GoString)
    (action : Action) (h : s.registry.lookup k = some a) :
    ∃ s', store s key action = some s' := by
  cases hst : store s key action with
  | none => exact absurd (store_eq_none.1 hst) (actions_ne_none_of_lookup h)
  | some s' => exact ⟨s', rfl⟩

theorem lookup_iff_mem (m : ActionMap) (k : GoString) (a : Action) :
    m.lookup k = some a ↔ (⟨k, a⟩ : Sigma fun _ : GoString => Action) ∈ m.entries :=
  AList.mem_lookup_iff

theorem nameTaken_eq_true_iff (m : ActionMap) (name : GoString) :
    nameTaken m name = true ↔ ∃ k a, m.lookup k = some a ∧ a.Name = name := by
  unfold nameTaken
  rw [List.any_eq_true]
  constructor
  · rintro ⟨⟨k, a⟩, hmem, hname⟩
    exact ⟨k, a, (lookup_iff_mem m k a).2 hmem, by simpa using hname⟩
  · rintro ⟨k, a, hlook, hname⟩
    exact ⟨⟨k, a⟩, (lookup_iff_mem m k a).1 hlook, by simpa using hname⟩

theorem nameTaken_eq_false_iff (m : ActionMap) (name : GoString) :
    nameTaken m name = false ↔ ∀ k a, m.lookup k = some a → a.Name ≠ name := by
  rw [← Bool.not_eq_true, nameTaken_eq_true_iff]
  constructor
  · intro h k a hlook hname
    exact h ⟨k, a, hlook, hname⟩
  · rintro h ⟨k, a, hlook, hname⟩
    exact h k a hlook hname

theorem nameTakenByOther_eq_false_iff (m : ActionMap) (actionID name : GoString) :
    nameTakenByOther m actionID name = false ↔
      ∀ k a, m.lookup k = some a → a.ID ≠ actionID → a.Name ≠ name := by
  unfold nameTakenByOther
  rw [List.any_eq_false]
  constructor
  · intro h k a hlook hid hname
    exact h ⟨k, a⟩ ((lookup_iff_mem m k a).1 hlook) (by simp [hid, hname])
  · rintro h ⟨k, a⟩ hmem hx
    simp only [Bool.and_eq_true, bne_iff_ne, ne_eq, beq_iff_eq] at hx
    exact h k a ((lookup_iff_mem m k a).2 hmem) hx.1 hx.2

/-- The registry invariant in terms of lookups: actions stored under
different ids have different names. -/
theorem namesUnique_iff_lookup (m : ActionMap) :
    NamesUnique m ↔
      ∀ k₁ k₂ a₁ a₂, m.lookup k₁ = some a₁ → m.lookup k₂ = some a₂ → k₁ ≠ k₂ →
        a₁.Name ≠ a₂.Name := by
  unfold NamesUnique
  constructor
  · intro h k₁ k₂ a₁ a₂ h₁ h₂ hne
    have hsymm : Symmetric fun e f : (Sigma fun _ : GoString => Action) => e.2.Name ≠ f.2.Name :=
      fun _ _ hxy => fun heq => hxy heq.symm
    have := h.forall hsymm ((lookup_iff_mem m k₁ a₁).1 h₁) ((lookup_iff_mem m k₂ a₂).1 h₂)
      (by intro heq; exact hne (congrArg Sigma.fst heq))
    exact this
  · intro h
    have hk : m.entries.Pairwise fun e f => e.1 ≠ f.1 := m.nodupKeys.pairwise_ne
    refine hk.imp_of_mem ?_
    rintro ⟨k₁, a₁⟩ ⟨k₂, a₂⟩ h₁ h₂ hne
    exact h k₁ k₂ a₁ a₂ ((lookup_iff_mem m k₁ a₁).2 h₁) ((lookup_iff_mem m k₂ a₂).2 h₂) hne

theorem keysMatchIDs_iff_lookup (m : ActionMap) :
    KeysMatchIDs m ↔ ∀ k a, m.lookup k = some a → a.ID = k := by
  unfold KeysMatchIDs
  constructor
  · intro h k a hlook
    exact h ⟨k, a⟩ ((lookup_iff_mem m k a).1 hlook)
  · rintro h ⟨k, a⟩ hmem
    exact h k a ((lookup_iff_mem m k a).2 hmem)

/-! ## The registry invariant -/

theorem inv_empty : Inv (∅ : ActionMap) :=
  ⟨fun _ h => (List.not_mem_nil _ h).elim, List.Pairwise.nil⟩

theorem inv_emptyRegistry (isNil : Bool) (logs : List LogEntry) (disk : Disk) :
    Inv (State.registry ⟨emptyRegistry isNil, logs, disk⟩) := by
  cases isNil <;> exact inv_empty

theorem inv_insert {m : ActionMap} {k : GoString} {a : Action} (h : Inv m) (hid : a.ID = k)
    (hfresh : ∀ k' a', m.lookup k' = some a' → k' ≠ k → a'.Name ≠ a.Name) :
    Inv (m.insert k a) := by
  obtain ⟨hK, hN⟩ := h
  rw [keysMatchIDs_iff_lookup] at hK
  rw [namesUnique_iff_lookup] at hN
  refine ⟨(keysMatchIDs_iff_lookup _).2 ?_, (namesUnique_iff_lookup _).2 ?_⟩
  · intro k' a' hlook
    by_cases hk : k' = k
    · subst hk
      rw [AList.lookup_insert] at hlook
      cases hlook
      exact hid
    · rw [AList.lookup_insert_ne hk] at hlook
      exact hK k' a' hlook
  · intro k₁ k₂ a₁ a₂ h₁ h₂ hne
    by_cases hk₁ : k₁ = k
    · subst hk₁
      rw [AList.lookup_insert] at h₁
      cases h₁
      rw [AList.lookup_insert_ne (Ne.symm hne)] at h₂
      exact fun heq => hfresh k₂ a₂ h₂ (Ne.symm hne) heq.symm
    · rw [AList.lookup_insert_ne hk₁] at h₁
      by_cases hk₂ : k₂ = k
      · subst hk₂
        rw [AList.lookup_insert] at h₂
        cases h₂
        exact hfresh k₁ a₁ h₁ hk₁
      · rw [AList.lookup_insert_ne hk₂] at h₂
        exact hN k₁ k₂ a₁ a₂ h₁ h₂ hne

theorem lookup_erase_some {m : ActionMap} {k k' : GoString} {a : Action}
    (h : (m.erase k).lookup k' = some a) : m.lookup k' = some a := by
  by_cases hk : k' = k
  · subst hk
    rw [AList.lookup_erase] at h
    cases h
  · rwa [AList.lookup_erase_ne hk] at h

theorem inv_erase {m : ActionMap} (k : GoString) (h : Inv m) : Inv (m.erase k) := by
  obtain ⟨hK, hN⟩ := h
  rw [keysMatchIDs_iff_lookup] at hK
  rw [namesUnique_iff_lookup] at hN
  refine ⟨(keysMatchIDs_iff_lookup _).2 ?_, (namesUnique_iff_lookup _).2 ?_⟩
  · intro k' a' hlook
    exact hK k' a' (lookup_erase_some hlook)
  · intro k₁ k₂ a₁ a₂ h₁ h₂ hne
    exact hN k₁ k₂ a₁ a₂ (lookup_erase_some h₁) (lookup_erase_some h₂) hne

theorem prepare_name (action : Action) (rnd : Nat → Nat) :
    (prepare action rnd).Name = action.Name := by
  unfold prepare
  by_cases hm : action.Method = lit "" <;> simp [hm]

theorem prepare_id (action : Action) (rnd : Nat → Nat) :
    (prepare action rnd).ID = generateID rnd := rfl

theorem createAction_inv (c : Codec) (s : State) (decoded : Except GoString Action)
    (rnd : Nat → Nat) (h : Inv s.registry) : Inv (createAction c s decoded rnd).1.registry := by
  unfold createAction
  cases decoded with
  | error err => exact h
  | ok action =>
    dsimp only
    by_cases hname : nameTaken s.registry action.Name = true
    · rw [if_pos hname]; exact h
    · rw [if_neg hname]
      by_cases hurl : action.URL = lit ""
      · rw [if_pos hurl]; exact h
      · rw [if_neg hurl]
        cases hst : store s (prepare action rnd).ID (prepare action rnd) with
        | none => exact h
        | some s' =>
          dsimp only
          rw [saveToFile_registry, (store_eq_some hst).2.2.1]
          have hfree := (nameTaken_eq_false_iff _ _).1 (Bool.not_eq_true _ ▸ hname)
          refine inv_insert h rfl ?_
          intro k' a' hlook _
          rw [prepare_name]
          exact hfree k' a' hlook

theorem updateAction_inv (c : Codec) (s : State) (decoded : Except GoString Action)
    (actionID : GoString) (h : Inv s.registry) :
    Inv (updateAction c s decoded actionID).1.registry := by
  unfold updateAction
  cases decoded with
  | error err => exact h
  | ok updatedAction =>
    dsimp only
    by_cases hid : actionID = lit ""
    · rw [if_pos hid]; exact h
    · rw [if_neg hid]
      cases hlook : s.registry.lookup actionID with
      | none => exact h
      | some action =>
        dsimp only
        by_cases hname : nameTakenByOther s.registry actionID updatedAction.Name = true
        · rw [if_pos hname]; exact h
        · rw [if_neg hname]
          cases hst : store s actionID { action with
              Name := updatedAction.Name, URL := updatedAction.URL,
              Method := updatedAction.Method, Headers := updatedAction.Headers,
              Body := updatedAction.Body } with
          | none => exact h
          | some s' =>
            dsimp only
            rw [saveToFile_registry, (store_eq_some hst).2.2.1]
            have hfree := (nameTakenByOther_eq_false_iff _ _ _).1 (Bool.not_eq_true _ ▸ hname)
            have hK := (keysMatchIDs_iff_lookup _).1 h.1
            refine inv_insert h (hK actionID action hlook) ?_
            intro k' a' hlook' hne
            exact hfree k' a' hlook' (by rw [hK k' a' hlook']; exact hne)

theorem deleteAction_inv (c : Codec) (s : State) (actionID : GoString) (h : Inv s.registry) :
    Inv (deleteAction c s actionID).1.registry := by
  unfold deleteAction
  by_cases hid : actionID = lit ""
  · rw [if_pos hid]; exact h
  · rw [if_neg hid]
    cases hlook : s.registry.lookup actionID with
    | none => exact h
    | some action =>
      dsimp only
      rw [saveToFile_registry]
      cases hm : s.actions with
      | none => exact absurd hm (actions_ne_none_of_lookup hlook)
      | some m =>
        have hreg : s.registry = m := by simp [State.registry, hm]
        rw [hreg] at h
        exact inv_erase actionID h

theorem handle_inv (c : Codec) (s : State) (r : Request) (h : Inv s.registry) :
    Inv (handle c s r).1.registry := by
  cases r with
  | create decoded rnd => exact createAction_inv c s decoded rnd h
  | update decoded actionID => exact updateAction_inv c s decoded actionID h
  | delete actionID => exact deleteAction_inv c s actionID h

theorem run_inv (c : Codec) (reqs : List Request) :
    ∀ s : State, Inv s.registry → Inv (run c s reqs).registry := by
  induction reqs with
  | nil => intro s h; exact h
  | cons r rest ih =>
    intro s h
    exact ih (handle c s r).1 (handle_inv c s r h)

/-! ## The nil map

The map `actions` is made by `make` at start-up and is nil only after
`loadFromFile` has read a snapshot without an `actions` object, which
`saveToFile` never writes for a map that is not nil. -/

/-- No handler changes a state whose map is nil: the lookups find nothing and
the insertion of `createAction` panics. -/
theorem handle_of_nil (c : Codec) (s : State) (r : Request) (h : s.actions = none) :
    (handle c s r).1 = s := by
  have hreg : s.registry = ∅ := by simp [State.registry, h]
  cases r with
  | create decoded rnd =>
    cases decoded with
    | error err => rfl
    | ok action =>
      simp only [handle, createAction]
      split
      · rfl
      · split
        · rfl
        · rw [store_eq_none.2 h]
  | update decoded actionID =>
    cases decoded with
    | error err => rfl
    | ok action =>
      simp only [handle, updateAction, hreg]
      split
      · rfl
      · rfl
  | delete actionID =>
    simp only [handle, deleteAction, hreg]
    split
    · rfl
    · rfl

/-- A map that is not nil stays so under every handler. -/
theorem handle_actions_ne_none (c : Codec) (s : State) (r : Request) (h : s.actions ≠ none) :
    (handle c s r).1.actions ≠ none := by
  cases r with
  | create decoded rnd =>
    cases decoded with
    | error err => exact h
    | ok action =>
      simp only [handle, createAction]
      split
      · exact h
      · split
        · exact h
        · cases hst : store s (prepare action rnd).ID (prepare action rnd) with
          | none => exact h
          | some s' =>
            dsimp only
            rw [saveToFile_actions]
            exact (store_eq_some hst).2.1
  | update decoded actionID =>
    cases decoded with
    | error err => exact h
    | ok updatedAction =>
      simp only [handle, updateAction]
      split
      · exact h
      · split
        · exact h
        · split
          · exact h
          · split
            · exact h
            · rename_i s' hst
              rw [saveToFile_actions]
              exact (store_eq_some hst).2.1
  | delete actionID =>
    simp only [handle, deleteAction]
    split
    · exact h
    · split
      · exact h
      · rw [saveToFile_actions]
        cases hm : s.actions with
        | none => exact absurd hm h
        | some m => simp

/-- The map made at start-up is never nil in a run of the server. -/
theorem run_actions_ne_none (c : Codec) (reqs : List Request) :
    ∀ s : State, s.actions ≠ none → (run c s reqs).actions ≠ none := by
  induction reqs with
  | nil => intro s h; exact h
  | cons r rest ih =>
    intro s h
    exact ih (handle c s r).1 (handle_actions_ne_none c s r h)

set_option maxRecDepth 1000000 in
/-- A snapshot file holding the empty object leaves `actions` nil. -/
theorem emptyObjectState_actions :
    emptyObjectState.actions = none ∧ emptyObjectState.logs = [] := by
  decide

/-! ## Properties of the registry and the dispatcher -/

/-- C1. Name uniqueness is an invariant of the registry: in the state reached
from an empty registry (the map made at start-up or the nil map, with any log
and any disk) by serving any sequence of create, update and delete requests
one after the other, whatever their inputs and whether they succeed or fail,
the names of the stored entries are pairwise different, that is, two actions
stored under different ids never have the same name. -/
theorem names_unique_invariant (c : Codec) (isNil : Bool) (logs : List LogEntry) (disk : Disk)
    (reqs : List Request) :
    NamesUnique (run c ⟨emptyRegistry isNil, logs, disk⟩ reqs).registry ∧
      ∀ k₁ k₂ a₁ a₂,
        (run c ⟨emptyRegistry isNil, logs, disk⟩ reqs).registry.lookup k₁ = some a₁ →
        (run c ⟨emptyRegistry isNil, logs, disk⟩ reqs).registry.lookup k₂ = some a₂ →
        k₁ ≠ k₂ → a₁.Name ≠ a₂.Name := by
  have h := (run_inv c reqs ⟨emptyRegistry isNil, logs, disk⟩
    (inv_emptyRegistry isNil logs disk)).2
  exact ⟨h, (namesUnique_iff_lookup _).1 h⟩

set_option maxRecDepth 1000000 in
/-- Instance of C1: after creating `Ping` and `Pong` and then failing to
create a second `Ping`, the two stored actions have different names. -/
theorem names_unique_invariant_witness :
    (run goJSON ⟨emptyRegistry false, [], emptyDisk⟩
        [.create (.ok pingAction) sampleRnd, .create (.ok pongAction) fun _ => 1,
          .create (.ok pingAction) fun _ => 2]).registry.lookup (lit "abababababababab")
      = some { pingAction with ID := lit "abababababababab" } ∧
    (run goJSON ⟨emptyRegistry false, [], emptyDisk⟩
        [.create (.ok pingAction) sampleRnd, .create (.ok pongAction) fun _ => 1,
          .create (.ok pingAction) fun _ => 2]).registry.lookup (lit "0101010101010101")
      = some { pongAction with ID := lit "0101010101010101" } ∧
    lit "abababababababab" ≠ lit "0101010101010101" ∧
    ({ pingAction with ID := lit "abababababababab" } : Action).Name ≠
      ({ pongAction with ID := lit "0101010101010101" } : Action).Name :=
  ⟨by decide, by decide, by decide,
    (names_unique_invariant goJSON false [] emptyDisk
      [.create (.ok pingAction) sampleRnd, .create (.ok pongAction) fun _ => 1,
        .create (.ok pingAction) fun _ => 2]).2
      (lit "abababababababab") (lit "0101010101010101") _ _ (by decide) (by decide)
      (by decide)⟩

theorem countP_name_eq_one {l : List (Sigma fun _ : GoString => Action)} {name : GoString}
    (hl : l.Pairwise fun e f => e.2.Name ≠ f.2.Name)
    (hex : ∃ e ∈ l, e.2.Name = name) :
    l.countP (fun e => e.2.Name == name) = 1 := by
  induction l with
  | nil =>
    obtain ⟨e, he, _⟩ := hex
    exact (List.not_mem_nil _ he).elim
  | cons x xs ih =>
    obtain ⟨hx, hxs⟩ := List.pairwise_cons.1 hl
    by_cases hname : x.2.Name = name
    · have hzero : xs.countP (fun e => e.2.Name == name) = 0 := by
        rw [List.countP_eq_zero]
        intro y hy hyn
        exact hx y hy (by rw [hname]; exact (beq_iff_eq.1 hyn).symm)
      rw [List.countP_cons_of_pos _ _ (by simpa using hname), hzero]
    · obtain ⟨e, he, hen⟩ := hex
      have hmem : e ∈ xs := by
        rcases List.mem_cons.1 he with h | h
        · exact absurd (h ▸ hen) hname
        · exact h
      rw [List.countP_cons_of_neg _ _ (by simpa using hname)]
      exact ih hxs ⟨e, hmem, hen⟩

/-- C2. A create request whose name is the name of an action already stored
(under any id `k`) is answered with the error `Action name must be unique`,
status 400, and the state is returned exactly as it was; hence, in a registry
with unique names, the number of stored actions with that name is still
exactly one. -/
theorem createAction_duplicate_name (c : Codec) (s : State) (req : Action) (rnd : Nat → Nat)
    (k : GoString) (a : Action) (hk : s.registry.lookup k = some a)
    (hname : a.Name = req.Name) :
    createAction c s (.ok req) rnd = (s, .error (lit "Action name must be unique") 400) ∧
      (NamesUnique s.registry →
        countNamed (createAction c s (.ok req) rnd).1.registry req.Name = 1) := by
  have htaken : nameTaken s.registry req.Name = true :=
    (nameTaken_eq_true_iff _ _).2 ⟨k, a, hk, hname⟩
  have hres : createAction c s (.ok req) rnd =
      (s, .error (lit "Action name must be unique") 400) := by
    unfold createAction
    dsimp only
    rw [if_pos htaken]
  refine ⟨hres, fun hN => ?_⟩
  rw [hres]
  exact countP_name_eq_one hN ⟨⟨k, a⟩, (lookup_iff_mem _ k a).1 hk, hname⟩

/-- Instance of C2: with `Ping` stored, creating another `Ping` (here with a
different url) fails and leaves one `Ping`. -/
theorem createAction_duplicate_name_witness :
    sampleState.registry.lookup (lit "00000000000000aa") = some pingAction ∧
    pingAction.Name = ({ pongAction with Name := lit "Ping" } : Action).Name ∧
    NamesUnique sampleState.registry ∧
    createAction goJSON sampleState (.ok { pongAction with Name := lit "Ping" }) sampleRnd
      = (sampleState, .error (lit "Action name must be unique") 400) ∧
    countNamed (createAction goJSON sampleState
      (.ok { pongAction with Name := lit "Ping" }) sampleRnd).1.registry (lit "Ping") = 1 :=
  have h := createAction_duplicate_name goJSON sampleState
    { pongAction with Name := lit "Ping" } sampleRnd (lit "00000000000000aa") pingAction
    (by decide) (by decide)
  ⟨by decide, by decide, by decide, h.1, h.2 (by decide)⟩

set_option maxRecDepth 1000000 in
/-- C3, evaluated on the code. `Ping` is stored with url `http://x.invalid`,
method `GET` and body `payload`; an update of it whose request sets only the
name succeeds, and the stored action then has an empty url, an empty method
and an empty body: the unset fields were overwritten, not kept. The `edit`
command with the same fields set and unset keeps the stored action whole. -/
theorem updateAction_unset_fields_overwritten :
    sampleState.registry.lookup (lit "00000000000000aa") = some pingAction ∧
    pingAction.URL = lit "http://x.invalid" ∧ pingAction.Method = lit "GET" ∧
    pingAction.Body = lit "payload" ∧
    updateAction goJSON sampleState
        (.ok { ID := lit "", Name := lit "Ping", URL := lit "", Method := lit "",
               Headers := none, Body := lit "" })
        (lit "00000000000000aa")
      = (saveToFile goJSON { sampleState with
            actions := some (sampleState.registry.insert (lit "00000000000000aa")
              { ID := lit "00000000000000aa", Name := lit "Ping", URL := lit "",
                Method := lit "", Headers := none, Body := lit "" }) },
          .json { ID := lit "00000000000000aa", Name := lit "Ping", URL := lit "",
                  Method := lit "", Headers := none, Body := lit "" }) ∧
    (updateAction goJSON sampleState
        (.ok { ID := lit "", Name := lit "Ping", URL := lit "", Method := lit "",
               Headers := none, Body := lit "" })
        (lit "00000000000000aa")).1.registry.lookup (lit "00000000000000aa")
      = some { ID := lit "00000000000000aa", Name := lit "Ping", URL := lit "",
               Method := lit "", Headers := none, Body := lit "" } ∧
    (editCommand goJSON sampleState (lit "00000000000000aa") (lit "Ping") (lit "") (lit "")
        (lit "") (lit "") none).registry.lookup (lit "00000000000000aa")
      = some pingAction := by
  decide

/-- C4 as stated fails. `Ping` is stored and its request is built, the
outbound call fails with a transport error: `executeAction` returns that error
as its error value, and the trigger is answered with status 500, not 200. -/
theorem executeAction_transport_failure_counterexample :
    sampleState.registry.lookup (lit "00000000000000aa") = some pingAction ∧
    (executeAction goJSON sampleState pingAction none
        (.error (lit "dial tcp: lookup x.invalid: no such host")) laterTime).2.err
      = some (lit "dial tcp: lookup x.invalid: no such host") ∧
    (triggerAction goJSON sampleState (lit "00000000000000aa") none
        (.error (lit "dial tcp: lookup x.invalid: no such host")) laterTime).2
      = .error (lit "Request failed: dial tcp: lookup x.invalid: no such host") 500 := by
  decide

/-- C4, amended. When the request is built and the outbound call fails at the
transport level with error `err`, `executeAction` returns `success = false`,
the message `Request failed: ` followed by the error text, and the transport
error itself as its error value; it appends one log entry with
`success = false` and that message; and a trigger of a stored action with that
outcome is answered by `http.Error` with that message and status 500. -/
theorem executeAction_transport_failure (c : Codec) (s : State) (action : Action)
    (err : GoString) (now : Time) :
    (executeAction c s action none (.error err) now).2.success = false ∧
    (executeAction c s action none (.error err) now).2.logMsg =
      lit "Request failed: " ++ err ∧
    (executeAction c s action none (.error err) now).2.err = some err ∧
    (executeAction c s action none (.error err) now).1.logs =
      s.logs ++ [{ Timestamp := now, ActionID := action.ID, Success := false,
                   Response := lit "Request failed: " ++ err }] ∧
    ∀ id, s.registry.lookup id = some action →
      (triggerAction c s id none (.error err) now).2 =
        .error (lit "Request failed: " ++ err) 500 := by
  refine ⟨rfl, rfl, rfl, ?_, ?_⟩
  · simp [executeAction, logTrigger]
  · intro id hlook
    simp [triggerAction, hlook, executeAction]

/-- Instance of the amended C4 on the stored action `Ping`. -/
theorem executeAction_transport_failure_witness :
    sampleState.registry.lookup (lit "00000000000000aa") = some pingAction ∧
    (triggerAction goJSON sampleState (lit "00000000000000aa") none
        (.error (lit "no such host")) laterTime).2 =
      .error (lit "Request failed: " ++ lit "no such host") 500 :=
  ⟨by decide,
    (executeAction_transport_failure goJSON sampleState pingAction (lit "no such host")
      laterTime).2.2.2.2 (lit "00000000000000aa") (by decide)⟩

/-- C5. When the request is built, whatever the outbound call does, the
success flag returned by `executeAction` is true exactly when the call
returned a response whose status code `s` satisfies `200 ≤ s < 300`; the log
grows by one entry carrying the action's id, that same flag and the returned
message; and when the call returned a response the message is `Status: `
followed by the response's status line. -/
theorem executeAction_success_iff_2xx (c : Codec) (s : State) (action : Action)
    (doResult : Except GoString HTTPResponse) (now : Time) :
    ((executeAction c s action none doResult now).2.success = true ↔
      ∃ resp, doResult = .ok resp ∧ 200 ≤ resp.StatusCode ∧ resp.StatusCode < 300) ∧
    (executeAction c s action none doResult now).1.logs =
      s.logs ++ [{ Timestamp := now, ActionID := action.ID,
                   Success := (executeAction c s action none doResult now).2.success,
                   Response := (executeAction c s action none doResult now).2.logMsg }] ∧
    ∀ resp, doResult = .ok resp →
      (executeAction c s action none doResult now).2.logMsg = lit "Status: " ++ resp.Status := by
  cases doResult with
  | error err =>
    refine ⟨?_, ?_, ?_⟩
    · constructor
      · intro h; cases h
      · rintro ⟨resp, h, _⟩; cases h
    · simp [executeAction, logTrigger]
    · intro resp h; cases h
  | ok resp =>
    refine ⟨?_, ?_, ?_⟩
    · constructor
      · intro h
        refine ⟨resp, rfl, ?_⟩
        simpa [executeAction] using h
      · rintro ⟨resp', h, h₁, h₂⟩
        cases h
        simp [executeAction, h₁, h₂]
    · simp [executeAction, logTrigger]
    · intro resp' h
      cases h
      rfl

/-- Instance of C5: a `204 No Content` response gives the message
`Status: 204 No Content`. -/
theorem executeAction_success_iff_2xx_witness :
    (executeAction goJSON sampleState pingAction none
        (.ok { StatusCode := 204, Status := lit "204 No Content" }) laterTime).2.logMsg
      = lit "Status: " ++ lit "204 No Content" :=
  (executeAction_success_iff_2xx goJSON sampleState pingAction
    (.ok { StatusCode := 204, Status := lit "204 No Content" }) laterTime).2.2 _ rfl

theorem createAction_logs (c : Codec) (s : State) (decoded : Except GoString Action)
    (rnd : Nat → Nat) : (createAction c s decoded rnd).1.logs = s.logs := by
  unfold createAction
  cases decoded with
  | error err => rfl
  | ok action =>
    dsimp only
    split
    · rfl
    · split
      · rfl
      · split
        · rfl
        · rename_i s' hst
          rw [saveToFile_logs]
          exact (store_eq_some hst).2.2.2.1

theorem updateAction_logs (c : Codec) (s : State) (decoded : Except GoString Action)
    (actionID : GoString) : (updateAction c s decoded actionID).1.logs = s.logs := by
  unfold updateAction
  cases decoded with
  | error err => rfl
  | ok updatedAction =>
    dsimp only
    split
    · rfl
    · split
      · rfl
      · split
        · rfl
        · split
          · rfl
          · rename_i s' hst
            rw [saveToFile_logs]
            exact (store_eq_some hst).2.2.2.1

theorem deleteAction_logs (c : Codec) (s : State) (actionID : GoString) :
    (deleteAction c s actionID).1.logs = s.logs := by
  unfold deleteAction
  split
  · rfl
  · split
    · rfl
    · rw [saveToFile_logs]

theorem triggerAction_logs (c : Codec) (s : State) (id : GoString) (action : Action)
    (newRequestErr : Option GoString) (doResult : Except GoString HTTPResponse) (now : Time)
    (hlook : s.registry.lookup id = some action) :
    (triggerAction c s id newRequestErr doResult now).1.logs =
      s.logs ++ [{ Timestamp := now, ActionID := action.ID,
                   Success := (executeAction c s action newRequestErr doResult now).2.success,
                   Response :=
                    match newRequestErr with
                    | some err => lit "Request creation error: " ++ err
                    | none => (executeAction c s action newRequestErr doResult now).2.logMsg }] := by
  cases newRequestErr with
  | some err => simp [triggerAction, hlook, executeAction, logError]
  | none =>
    cases doResult with
    | error err => simp [triggerAction, hlook, executeAction, logTrigger]
    | ok resp => simp [triggerAction, hlook, executeAction, logTrigger]

/-- C6. The log only grows by dispatch, one entry at a time. From any state:
a trigger of an id under which an action is stored (the action carrying that
id) leaves a log that is the old log followed by exactly one new entry whose
`action_id` is that id, whether the request could not be built, the call
failed at the transport level, or a response of any status came back; a
trigger of an id that is not stored is answered `Action not found`, 404, and
changes nothing; and create, update and delete leave the log as it was. -/
theorem log_grows_only_by_dispatch (c : Codec) (s : State) :
    (∀ id action newRequestErr doResult now,
      s.registry.lookup id = some action → action.ID = id →
        ∃ e : LogEntry,
          (triggerAction c s id newRequestErr doResult now).1.logs = s.logs ++ [e] ∧
            e.ActionID = id) ∧
    (∀ id newRequestErr doResult now,
      s.registry.lookup id = none →
        triggerAction c s id newRequestErr doResult now =
          (s, .error (lit "Action not found") 404)) ∧
    (∀ decoded rnd, (createAction c s decoded rnd).1.logs = s.logs) ∧
    (∀ decoded actionID, (updateAction c s decoded actionID).1.logs = s.logs) ∧
    (∀ actionID, (deleteAction c s actionID).1.logs = s.logs) := by
  refine ⟨?_, ?_, createAction_logs c s, updateAction_logs c s, deleteAction_logs c s⟩
  · intro id action newRequestErr doResult now hlook hid
    exact ⟨_, triggerAction_logs c s id action newRequestErr doResult now hlook, hid⟩
  · intro id newRequestErr doResult now hlook
    simp [triggerAction, hlook]

/-- Instance of C6: triggering the stored `Ping` with a request that cannot be
built appends one entry for `Ping`; triggering `nonexistent` appends none. -/
theorem log_grows_only_by_dispatch_witness :
    sampleState.registry.lookup (lit "00000000000000aa") = some pingAction ∧
    pingAction.ID = lit "00000000000000aa" ∧
    (∃ e : LogEntry,
      (triggerAction goJSON sampleState (lit "00000000000000aa") (some (lit "invalid method"))
          (.error (lit "")) laterTime).1.logs = sampleState.logs ++ [e] ∧
        e.ActionID = lit "00000000000000aa") ∧
    sampleState.registry.lookup (lit "nonexistent") = none ∧
    triggerAction goJSON sampleState (lit "nonexistent") none (.error (lit "")) laterTime
      = (sampleState, .error (lit "Action not found") 404) :=
  ⟨by decide, by decide,
    (log_grows_only_by_dispatch goJSON sampleState).1 (lit "00000000000000aa") pingAction
      (some (lit "invalid method")) (.error (lit "")) laterTime (by decide) (by decide),
    by decide,
    (log_grows_only_by_dispatch goJSON sampleState).2.1 (lit "nonexistent") none
      (.error (lit "")) laterTime (by decide)⟩

/-- C7 as stated fails. `Ping` is stored; a create request with an empty url
and the name `Ping` is answered `Action name must be unique`, not
`URL is required`. -/
theorem createAction_empty_url_counterexample :
    ({ pongAction with Name := lit "Ping", URL := lit "" } : Action).URL = lit "" ∧
    createAction goJSON sampleState
        (.ok { pongAction with Name := lit "Ping", URL := lit "" }) sampleRnd
      = (sampleState, .error (lit "Action name must be unique") 400) ∧
    (createAction goJSON sampleState
        (.ok { pongAction with Name := lit "Ping", URL := lit "" }) sampleRnd).2
      ≠ .error (lit "URL is required") 400 := by
  decide

/-- C7, amended. A create request whose url is empty always fails with status
400 and leaves the state unchanged; the error is `URL is required` when no
stored action has the requested name, and `Action name must be unique` when
one has, because the name is checked before the url. -/
theorem createAction_empty_url (c : Codec) (s : State) (req : Action) (rnd : Nat → Nat)
    (hurl : req.URL = lit "") :
    (createAction c s (.ok req) rnd).1 = s ∧
    ((∀ k a, s.registry.lookup k = some a → a.Name ≠ req.Name) →
      (createAction c s (.ok req) rnd).2 = .error (lit "URL is required") 400) ∧
    ((∃ k a, s.registry.lookup k = some a ∧ a.Name = req.Name) →
      (createAction c s (.ok req) rnd).2 = .error (lit "Action name must be unique") 400) := by
  refine ⟨?_, ?_, ?_⟩
  · by_cases h : nameTaken s.registry req.Name = true
    · simp [createAction, h]
    · simp [createAction, h, hurl]
  · intro hfree
    have h := (nameTaken_eq_false_iff _ _).2 hfree
    simp [createAction, h, hurl]
  · intro htaken
    have h := (nameTaken_eq_true_iff _ _).2 htaken
    simp [createAction, h]

/-- Instance of the amended C7: with `Ping` and `Pong` stored, creating
`Pang` with an empty url fails with `URL is required`. -/
theorem createAction_empty_url_witness :
    ({ pongAction with Name := lit "Pang", URL := lit "" } : Action).URL = lit "" ∧
    (createAction goJSON sampleState
        (.ok { pongAction with Name := lit "Pang", URL := lit "" }) sampleRnd).1
      = sampleState ∧
    (createAction goJSON sampleState
        (.ok { pongAction with Name := lit "Pang", URL := lit "" }) sampleRnd).2
      = .error (lit "URL is required") 400 :=
  have h := createAction_empty_url goJSON sampleState
    { pongAction with Name := lit "Pang", URL := lit "" } sampleRnd rfl
  ⟨rfl, h.1, h.2.1 ((nameTaken_eq_false_iff _ _).1 (by decide))⟩

/-! ### The identifier generator -/

theorem hextable_digit :
    ∀ d < 16, hextable.getD d 0 ∈ hextable ∧ hexValue (hextable.getD d 0) = some d := by
  decide

theorem byte_digits (v : Nat) : (v % 256) / 16 < 16 ∧ (v % 256) % 16 < 16 := by
  constructor <;> omega

theorem hexEncodeToString_cons (v : Nat) (src : List Nat) :
    hexEncodeToString (v :: src) =
      hextable.getD ((v % 256) / 16) 0 :: hextable.getD ((v % 256) % 16) 0 ::
        hexEncodeToString src := by
  simp [hexEncodeToString, List.flatMap_cons]

theorem hexEncodeToString_length (src : List Nat) :
    (hexEncodeToString src).length = 2 * src.length := by
  induction src with
  | nil => rfl
  | cons v rest ih =>
    rw [hexEncodeToString_cons, List.length_cons, List.length_cons, ih, List.length_cons]
    omega

theorem hexEncodeToString_chars (src : List Nat) :
    ∀ b ∈ hexEncodeToString src, b ∈ hextable := by
  induction src with
  | nil => intro b h; cases h
  | cons v rest ih =>
    intro b h
    rw [hexEncodeToString_cons] at h
    rcases List.mem_cons.1 h with h | h
    · rw [h]; exact (hextable_digit _ (byte_digits v).1).1
    · rcases List.mem_cons.1 h with h | h
      · rw [h]; exact (hextable_digit _ (byte_digits v).2).1
      · exact ih b h

theorem hexDecode_hexEncodeToString (src : List Nat) :
    hexDecode (hexEncodeToString src) = some (src.map fun v => v % 256) := by
  induction src with
  | nil => rfl
  | cons v rest ih =>
    rw [hexEncodeToString_cons, hexDecode, (hextable_digit _ (byte_digits v).1).2,
      (hextable_digit _ (byte_digits v).2).2, ih]
    simp only [List.map_cons, Option.some.injEq, List.cons.injEq, and_true]
    omega

theorem randRead_length (rnd : Nat → Nat) : (randRead rnd).length = 8 := by
  simp [randRead]

theorem randRead_map_mod (rnd : Nat → Nat) :
    (randRead rnd).map (fun v => v % 256) = randRead rnd := by
  simp [randRead, List.map_map, Function.comp_def]

/-- The value of `generateID` is 16 bytes long, all of them lowercase
hexadecimal digits, and it denotes the 8 bytes read from the random source. -/
theorem generateID_spec (rnd : Nat → Nat) :
    (generateID rnd).length = 16 ∧
    (∀ b ∈ generateID rnd, b ∈ lit "0123456789abcdef") ∧
    hexDecode (generateID rnd) = some (randRead rnd) ∧
    (randRead rnd).length = 8 ∧ ∀ v ∈ randRead rnd, v < 256 := by
  refine ⟨?_, hexEncodeToString_chars _, ?_, randRead_length rnd, ?_⟩
  · rw [generateID, hexEncodeToString_length, randRead_length]
  · rw [generateID, hexDecode_hexEncodeToString, randRead_map_mod]
  · intro v hv
    simp only [randRead, List.mem_map] at hv
    obtain ⟨i, _, rfl⟩ := hv
    exact Nat.mod_lt _ (by decide)

/-- What `createAction` does with a request that decodes, has a non-empty url
and a name that no stored action has: it panics when `actions` is nil, and
otherwise stores and returns the prepared action. -/
theorem createAction_passed (c : Codec) (s : State) (req : Action) (rnd : Nat → Nat)
    (hurl : req.URL ≠ lit "")
    (hfree : ∀ k a, s.registry.lookup k = some a → a.Name ≠ req.Name) :
    (s.actions = none →
      createAction c s (.ok req) rnd = (s, .panicked (lit "assignment to entry in nil map"))) ∧
    (s.actions ≠ none →
      (createAction c s (.ok req) rnd).2 = .json (prepare req rnd) ∧
      (createAction c s (.ok req) rnd).1.registry =
        s.registry.insert (generateID rnd) (prepare req rnd)) := by
  have hname := (nameTaken_eq_false_iff _ _).2 hfree
  constructor
  · intro hnil
    simp [createAction, hname, hurl, store_eq_none.2 hnil]
  · intro hmap
    cases hst : store s (prepare req rnd).ID (prepare req rnd) with
    | none => exact absurd (store_eq_none.1 hst) hmap
    | some s' =>
      have hreg := (store_eq_some hst).2.2.1
      rw [prepare_id] at hst hreg
      simp [createAction, hname, hurl, prepare_id, hst, hreg]

/-- C8. A call of `createAction` succeeds, that is, answers with
`respondJSON(w, action)`, exactly when the request body decodes, its url is
not empty, no stored action has its name, and the map `actions` is not nil.
For every call that succeeds, the returned action is the one the new registry
stores under that action's own id; the id is the value of `generateID`
(whatever id the request carried), 16 lowercase hexadecimal digits that denote
the 8 random bytes; the method is `POST` when the requested method is empty
and the requested method otherwise; name, url, headers and body are the
request's. When the request passes the checks and `actions` is the nil map,
the insertion panics and the state is left as it was. -/
theorem createAction_success (c : Codec) (s : State) (decoded : Except GoString Action)
    (rnd : Nat → Nat) :
    ((∃ created, (createAction c s decoded rnd).2 = .json created) ↔
      ∃ req, decoded = .ok req ∧ req.URL ≠ lit "" ∧
        (∀ k a, s.registry.lookup k = some a → a.Name ≠ req.Name) ∧ s.actions ≠ none) ∧
    (∀ req created, decoded = .ok req → (createAction c s decoded rnd).2 = .json created →
      (createAction c s decoded rnd).1.registry.lookup created.ID = some created ∧
      created.ID = generateID rnd ∧
      created.ID.length = 16 ∧
      (∀ b ∈ created.ID, b ∈ lit "0123456789abcdef") ∧
      hexDecode created.ID = some (randRead rnd) ∧
      (randRead rnd).length = 8 ∧
      created.Method = (if req.Method = lit "" then lit "POST" else req.Method) ∧
      created.Name = req.Name ∧ created.URL = req.URL ∧
      created.Headers = req.Headers ∧ created.Body = req.Body) ∧
    (∀ req, decoded = .ok req → req.URL ≠ lit "" →
      (∀ k a, s.registry.lookup k = some a → a.Name ≠ req.Name) → s.actions = none →
      createAction c s decoded rnd =
        (s, .panicked (lit "assignment to entry in nil map"))) := by
  have hsucc : ∀ created, (createAction c s decoded rnd).2 = .json created →
      ∃ req, decoded = .ok req ∧ req.URL ≠ lit "" ∧
        (∀ k a, s.registry.lookup k = some a → a.Name ≠ req.Name) ∧ s.actions ≠ none := by
    intro created hc
    cases decoded with
    | error err => simp [createAction] at hc
    | ok req =>
      by_cases hname : nameTaken s.registry req.Name = true
      · simp [createAction, hname] at hc
      · by_cases hurl : req.URL = lit ""
        · simp [createAction, hname, hurl] at hc
        · have hfree := (nameTaken_eq_false_iff _ _).1 (Bool.not_eq_true _ ▸ hname)
          refine ⟨req, rfl, hurl, hfree, ?_⟩
          intro hnil
          rw [((createAction_passed c s req rnd hurl hfree).1 hnil)] at hc
          cases hc
  refine ⟨⟨fun ⟨created, hc⟩ => hsucc created hc, ?_⟩, ?_, ?_⟩
  · rintro ⟨req, rfl, hurl, hfree, hmap⟩
    exact ⟨_, ((createAction_passed c s req rnd hurl hfree).2 hmap).1⟩
  · rintro req created rfl hc
    obtain ⟨req', hreq, hurl, hfree, hmap⟩ := hsucc created hc
    obtain rfl : req = req' := by
      cases hreq
      rfl
    obtain ⟨hresp, hreg⟩ := (createAction_passed c s req rnd hurl hfree).2 hmap
    rw [hresp] at hc
    cases hc
    have hid := generateID_spec rnd
    refine ⟨?_, rfl, hid.1, hid.2.1, hid.2.2.1, hid.2.2.2.1, ?_⟩
    · rw [hreg, prepare_id, AList.lookup_insert]
    · unfold prepare
      by_cases hm : req.Method = lit "" <;> simp [hm]
  · rintro req rfl hurl hfree hnil
    exact (createAction_passed c s req rnd hurl hfree).1 hnil

set_option maxRecDepth 1000000 in
/-- Instance of C8: with `Ping` and `Pong` stored, creating `Pang` (the request
carries the id of `Pong` and an empty method) returns an action with the
generated id and the method `POST`, stored under that id; on the state of a
server started on a snapshot holding the empty object, the same request
panics. -/
theorem createAction_success_witness :
    (createAction goJSON sampleState (.ok pangRequest) sampleRnd).2 =
      .json { pangRequest with ID := lit "abababababababab", Method := lit "POST" } ∧
    (createAction goJSON sampleState (.ok pangRequest) sampleRnd).1.registry.lookup
        ({ pangRequest with ID := lit "abababababababab", Method := lit "POST" } : Action).ID
      = some { pangRequest with ID := lit "abababababababab", Method := lit "POST" } ∧
    pangRequest.URL ≠ lit "" ∧
    emptyObjectState.actions = none ∧
    createAction goJSON emptyObjectState (.ok pangRequest) sampleRnd =
      (emptyObjectState, .panicked (lit "assignment to entry in nil map")) :=
  ⟨by decide,
    ((createAction_success goJSON sampleState (.ok pangRequest) sampleRnd).2.1 pangRequest
      { pangRequest with ID := lit "abababababababab", Method := lit "POST" } rfl
      (by decide)).1,
    by decide, by decide,
    (createAction_success goJSON emptyObjectState (.ok pangRequest) sampleRnd).2.2 pangRequest
      rfl (by decide) ((nameTaken_eq_false_iff _ _).1 (by decide)) (by decide)⟩

/-- C9. An update of a stored action whose request supplies a header map `h`
and passes the name check succeeds, and afterwards the action stored under
that id has exactly the header map `h` (nothing of the previous map is kept),
still has the `ID` it had before, whatever id the request carried (which, when
actions are stored under their own ids, is the id it is stored under), and
every other id maps to what it mapped to before. -/
theorem updateAction_replaces_headers (c : Codec) (s : State) (req : Action)
    (actionID : GoString) (old : Action) (h : AList fun _ : GoString => GoString)
    (hid : actionID ≠ lit "")
    (hlook : s.registry.lookup actionID = some old)
    (hname : nameTakenByOther s.registry actionID req.Name = false)
    (hh : req.Headers = some h) :
    ∃ new : Action,
      (updateAction c s (.ok req) actionID).2 = .json new ∧
      (updateAction c s (.ok req) actionID).1.registry.lookup actionID = some new ∧
      new.Headers = some h ∧
      new.ID = old.ID ∧
      (KeysMatchIDs s.registry → new.ID = actionID) ∧
      ∀ k, k ≠ actionID →
        (updateAction c s (.ok req) actionID).1.registry.lookup k = s.registry.lookup k := by
  obtain ⟨s', hst⟩ := store_of_lookup actionID
    { old with Name := req.Name, URL := req.URL, Method := req.Method,
               Headers := req.Headers, Body := req.Body } hlook
  have hreg := (store_eq_some hst).2.2.1
  refine ⟨{ old with Name := req.Name, URL := req.URL, Method := req.Method,
                      Headers := req.Headers, Body := req.Body }, ?_, ?_, hh, rfl, ?_, ?_⟩
  · simp [updateAction, hid, hlook, hname, hst]
  · simp [updateAction, hid, hlook, hname, hst, hreg]
  · intro hK
    exact (keysMatchIDs_iff_lookup _).1 hK actionID old hlook
  · intro k hk
    simp [updateAction, hid, hlook, hname, hst, hreg, AList.lookup_insert_ne hk]

/-- Instance of C9: `Ping` is stored with the header `X-Token`; an update that
carries another id and the single header `Accept` leaves `Ping` with only
`Accept`, under its old id, and leaves `Pong` as it was. -/
theorem updateAction_replaces_headers_witness :
    lit "00000000000000aa" ≠ lit "" ∧
    sampleState.registry.lookup (lit "00000000000000aa") = some pingAction ∧
    pingAction.Headers = some (AList.singleton (lit "X-Token") (lit "t1")) ∧
    nameTakenByOther sampleState.registry (lit "00000000000000aa") (lit "Ping") = false ∧
    ∃ new : Action,
      (updateAction goJSON sampleState
          (.ok { ID := lit "ffffffffffffffff", Name := lit "Ping", URL := lit "http://x.invalid",
                 Method := lit "GET",
                 Headers := some (AList.singleton (lit "Accept") (lit "*/*")),
                 Body := lit "payload" })
          (lit "00000000000000aa")).1.registry.lookup (lit "00000000000000aa") = some new ∧
      new.Headers = some (AList.singleton (lit "Accept") (lit "*/*")) ∧
      new.ID = lit "00000000000000aa" :=
  have h := updateAction_replaces_headers goJSON sampleState
    { ID := lit "ffffffffffffffff", Name := lit "Ping", URL := lit "http://x.invalid",
      Method := lit "GET", Headers := some (AList.singleton (lit "Accept") (lit "*/*")),
      Body := lit "payload" }
    (lit "00000000000000aa") pingAction (AList.singleton (lit "Accept") (lit "*/*"))
    (by decide) (by decide) (by decide) rfl
  ⟨by decide, by decide, by decide, by decide,
    h.elim fun new hn => ⟨new, hn.2.1, hn.2.2.1, hn.2.2.2.1.trans (by decide)⟩⟩

/-! ## The snapshot read back

The decoder reads back what the encoder wrote: first UTF-8, JSON strings,
objects and arrays, timestamps, then the three structs and the snapshot. -/

/-! ### UTF-8 -/

theorem char_toNat_valid (c : Char) :
    c.toNat < 0xD800 ∨ (0xDFFF < c.toNat ∧ c.toNat < 0x110000) := by
  have h := c.valid
  simpa [UInt32.isValidChar, Nat.isValidChar, Char.toNat] using h

theorem char_ofNat_toNat (c : Char) : Char.ofNat c.toNat = c := by
  simp

theorem decodeRune_encodeChar (c : Char) (rest : List Nat) :
    decodeRune (utf8EncodeChar c ++ rest) = (some c, rest) := by
  have hv := char_toNat_valid c
  have hc := char_ofNat_toNat c
  unfold utf8EncodeChar
  generalize c.toNat = v at hv hc ⊢
  by_cases h1 : v < 0x80
  · rw [if_pos h1]
    simp only [List.singleton_append, decodeRune, if_pos h1, hc]
  · rw [if_neg h1]
    by_cases h2 : v < 0x800
    · rw [if_pos h2]
      have e0 : ¬ (0xC0 + v / 64 < 0x80) := by omega
      have e1 : 0xC2 ≤ 0xC0 + v / 64 ∧ 0xC0 + v / 64 ≤ 0xDF := by omega
      have e2 : isCont (0x80 + v % 64) = true := by
        simp only [isCont, Bool.and_eq_true, decide_eq_true_eq]; omega
      have e3 : (0xC0 + v / 64 - 0xC0) * 64 + (0x80 + v % 64 - 0x80) = v := by omega
      simp only [List.cons_append, List.nil_append, decodeRune, if_neg e0, if_pos e1, e2,
        if_true, e3, hc]
    · rw [if_neg h2]
      by_cases h3 : v < 0x10000
      · rw [if_pos h3]
        have e0 : ¬ (0xE0 + v / 4096 < 0x80) := by omega
        have e1 : ¬ (0xC2 ≤ 0xE0 + v / 4096 ∧ 0xE0 + v / 4096 ≤ 0xDF) := by omega
        have e2 : 0xE0 ≤ 0xE0 + v / 4096 ∧ 0xE0 + v / 4096 ≤ 0xEF := by omega
        have e3 : isCont (0x80 + v % 64) = true := by
          simp only [isCont, Bool.and_eq_true, decide_eq_true_eq]; omega
        have e4 : (if 0xE0 + v / 4096 = 0xE0 then 0xA0 else 0x80) ≤ 0x80 + v / 64 % 64 ∧
            0x80 + v / 64 % 64 ≤ (if 0xE0 + v / 4096 = 0xED then 0x9F else 0xBF) ∧
            isCont (0x80 + v % 64) = true := by
          refine ⟨?_, ?_, e3⟩
          · split <;> omega
          · split <;> omega
        have e5 : (0xE0 + v / 4096 - 0xE0) * 4096 + (0x80 + v / 64 % 64 - 0x80) * 64 +
            (0x80 + v % 64 - 0x80) = v := by omega
        simp only [List.cons_append, List.nil_append, decodeRune, if_neg e0, if_neg e1,
          if_pos e2, if_pos e4, e5, hc]
      · rw [if_neg h3]
        have e0 : ¬ (0xF0 + v / 262144 < 0x80) := by omega
        have e1 : ¬ (0xC2 ≤ 0xF0 + v / 262144 ∧ 0xF0 + v / 262144 ≤ 0xDF) := by omega
        have e2 : ¬ (0xE0 ≤ 0xF0 + v / 262144 ∧ 0xF0 + v / 262144 ≤ 0xEF) := by omega
        have e3 : 0xF0 ≤ 0xF0 + v / 262144 ∧ 0xF0 + v / 262144 ≤ 0xF4 := by omega
        have e4 : isCont (0x80 + v / 64 % 64) = true := by
          simp only [isCont, Bool.and_eq_true, decide_eq_true_eq]; omega
        have e5 : isCont (0x80 + v % 64) = true := by
          simp only [isCont, Bool.and_eq_true, decide_eq_true_eq]; omega
        have e6 : (if 0xF0 + v / 262144 = 0xF0 then 0x90 else 0x80) ≤ 0x80 + v / 4096 % 64 ∧
            0x80 + v / 4096 % 64 ≤ (if 0xF0 + v / 262144 = 0xF4 then 0x8F else 0xBF) ∧
            isCont (0x80 + v / 64 % 64) = true ∧ isCont (0x80 + v % 64) = true := by
          refine ⟨?_, ?_, e4, e5⟩
          · split <;> omega
          · split <;> omega
        have e7 : (0xF0 + v / 262144 - 0xF0) * 262144 + (0x80 + v / 4096 % 64 - 0x80) * 4096 +
            (0x80 + v / 64 % 64 - 0x80) * 64 + (0x80 + v % 64 - 0x80) = v := by omega
        simp only [List.cons_append, List.nil_append, decodeRune, if_neg e0, if_neg e1,
          if_neg e2, if_pos e3, if_pos e6, e7, hc]

theorem utf8EncodeChar_ne_nil (c : Char) : ∃ b bs, utf8EncodeChar c = b :: bs := by
  unfold utf8EncodeChar
  split
  · exact ⟨_, _, rfl⟩
  · split
    · exact ⟨_, _, rfl⟩
    · split <;> exact ⟨_, _, rfl⟩

theorem utf8Encode_cons (c : Char) (text : List Char) :
    utf8Encode (c :: text) = utf8EncodeChar c ++ utf8Encode text := by
  simp [utf8Encode, List.flatMap_cons]

theorem decodeUnitsAux_encode :
    ∀ (text : List Char) (fuel : Nat), text.length ≤ fuel →
      decodeUnitsAux fuel (utf8Encode text) = text.map some := by
  intro text
  induction text with
  | nil =>
    intro fuel _
    cases fuel <;> rfl
  | cons c cs ih =>
    intro fuel hfuel
    cases fuel with
    | zero => simp at hfuel
    | succ f =>
      have hdec := decodeRune_encodeChar c (utf8Encode cs)
      obtain ⟨b, bs, hb⟩ := utf8EncodeChar_ne_nil c
      rw [utf8Encode_cons] at *
      rw [hb] at hdec ⊢
      rw [List.cons_append] at hdec ⊢
      rw [decodeUnitsAux, hdec]
      simp only [List.map_cons, List.cons.injEq, true_and]
      exact ih f (by simpa using hfuel)

theorem length_le_utf8Encode (text : List Char) : text.length ≤ (utf8Encode text).length := by
  induction text with
  | nil => simp [utf8Encode]
  | cons c cs ih =>
    obtain ⟨b, bs, hb⟩ := utf8EncodeChar_ne_nil c
    rw [utf8Encode_cons, hb]
    simp only [List.cons_append, List.length_cons, List.length_append]
    omega

theorem decodeUnits_encode (text : List Char) :
    decodeUnits (utf8Encode text) = text.map some :=
  decodeUnitsAux_encode text _ (length_le_utf8Encode text)

theorem toText_encode (text : List Char) : toText (utf8Encode text) = text := by
  simp [toText, decodeUnits_encode, Function.comp_def]

/-! ### JSON strings -/

theorem hexVal_hexDigit : ∀ d < 16, hexVal (hexDigit d) = some d := by
  decide

theorem parseHex4_low (v : Nat) (hv : v < 0x100) (tail : List Char) :
    parseHex4 ('0' :: '0' :: hexDigit (v / 16) :: hexDigit (v % 16) :: tail) = some (v, tail) := by
  have h0 : hexVal '0' = some 0 := by decide
  have h1 := hexVal_hexDigit (v / 16) (by omega)
  have h2 := hexVal_hexDigit (v % 16) (by omega)
  simp only [parseHex4, h0, h1, h2]
  congr 2
  omega

theorem parseHex4_separator (v : Nat) (hv : v = 0x2028 ∨ v = 0x2029) (tail : List Char) :
    parseHex4 ('2' :: '0' :: '2' :: hexDigit (v % 16) :: tail) = some (v, tail) := by
  rcases hv with rfl | rfl <;> rfl

theorem unicodeEscape_plain (v : Nat) (hv : v < 0xD800 ∨ 0xDFFF < v) (tail : List Char) :
    unicodeEscape v tail = (Char.ofNat v, tail) := by
  unfold unicodeEscape
  rw [if_neg (by omega)]

theorem parseStringBody_escapeChar (c : Char) (fuel : Nat) (tail : List Char) :
    parseStringBody (fuel + 1) (escapeChar c ++ tail) =
      match parseStringBody fuel tail with
      | none => none
      | some (text, out) => some (c :: text, out) := by
  have hc := char_ofNat_toNat c
  unfold escapeChar
  by_cases h1 : c = '"'
  · subst h1
    cases h : parseStringBody fuel tail <;> simp [parseStringBody, unescapeLetter, h]
  rw [if_neg h1]
  by_cases h2 : c = '\\'
  · subst h2
    cases h : parseStringBody fuel tail <;> simp [parseStringBody, unescapeLetter, h]
  rw [if_neg h2]
  by_cases h3 : c = '\n'
  · subst h3
    cases h : parseStringBody fuel tail <;> simp [parseStringBody, unescapeLetter, h]
  rw [if_neg h3]
  by_cases h4 : c = '\r'
  · subst h4
    cases h : parseStringBody fuel tail <;> simp [parseStringBody, unescapeLetter, h]
  rw [if_neg h4]
  by_cases h5 : c = '\t'
  · subst h5
    cases h : parseStringBody fuel tail <;> simp [parseStringBody, unescapeLetter, h]
  rw [if_neg h5]
  by_cases h6 : c.toNat = 8
  · rw [if_pos h6]
    have : Char.ofNat 8 = c := by rw [← h6]; exact hc
    subst this
    cases h : parseStringBody fuel tail <;> simp [parseStringBody, unescapeLetter, h]
  rw [if_neg h6]
  by_cases h7 : c.toNat = 12
  · rw [if_pos h7]
    have : Char.ofNat 12 = c := by rw [← h7]; exact hc
    subst this
    cases h : parseStringBody fuel tail <;> simp [parseStringBody, unescapeLetter, h]
  rw [if_neg h7]
  by_cases h8 : c.toNat < 0x20 ∨ c = '<' ∨ c = '>' ∨ c = '&'
  · rw [if_pos h8]
    have hlow : c.toNat < 0x100 := by
      rcases h8 with h | h | h | h
      · omega
      · subst h; decide
      · subst h; decide
      · subst h; decide
    have hhex := parseHex4_low c.toNat hlow tail
    have hesc := unicodeEscape_plain c.toNat (Or.inl (by omega)) tail
    cases h : parseStringBody fuel tail <;> simp [parseStringBody, hhex, hesc, hc, h]
  rw [if_neg h8]
  by_cases h9 : c.toNat = 0x2028 ∨ c.toNat = 0x2029
  · rw [if_pos h9]
    have hhex := parseHex4_separator c.toNat h9 tail
    have hesc := unicodeEscape_plain c.toNat (Or.inl (by omega)) tail
    cases h : parseStringBody fuel tail <;> simp [parseStringBody, hhex, hesc, hc, h]
  rw [if_neg h9]
  have hctl : ¬ c.toNat < 0x20 := fun h => h8 (Or.inl h)
  rw [List.singleton_append]
  cases h : parseStringBody fuel tail <;>
    simp only [parseStringBody, if_neg h1, if_neg h2, if_neg hctl, h]

theorem parseStringBody_render :
    ∀ (text : List Char) (fuel : Nat) (rest : List Char), text.length + 1 ≤ fuel →
      parseStringBody fuel (text.flatMap escapeChar ++ '"' :: rest) = some (text, rest) := by
  intro text
  induction text with
  | nil =>
    intro fuel rest hfuel
    cases fuel with
    | zero => omega
    | succ f => simp [parseStringBody]
  | cons c cs ih =>
    intro fuel rest hfuel
    cases fuel with
    | zero => omega
    | succ f =>
      rw [List.flatMap_cons, List.append_assoc, parseStringBody_escapeChar,
        ih f rest (by simpa using hfuel)]

theorem escapeChar_length (c : Char) : 1 ≤ (escapeChar c).length := by
  unfold escapeChar
  repeat' split
  all_goals simp

theorem length_le_flatMap_escapeChar (text : List Char) :
    text.length ≤ (text.flatMap escapeChar).length := by
  induction text with
  | nil => simp
  | cons c cs ih =>
    have := escapeChar_length c
    simp only [List.flatMap_cons, List.length_cons, List.length_append]
    omega

theorem renderString_encode (text : List Char) :
    renderString (utf8Encode text) = '"' :: (text.flatMap escapeChar ++ ['"']) := by
  unfold renderString
  rw [decodeUnits_encode]
  congr 2
  induction text with
  | nil => rfl
  | cons c cs ih => simp [List.flatMap_cons, escapeUnit, ih]

/-- A valid string is read back from its JSON form. -/
theorem parseString_renderString (s : GoString) (hs : ValidUTF8 s) (rest : List Char) :
    parseString (renderString s ++ rest) = some (s, rest) := by
  obtain ⟨text, rfl⟩ := hs
  rw [renderString_encode]
  have hlen := length_le_flatMap_escapeChar text
  have := parseStringBody_render text
    (text.flatMap escapeChar ++ '"' :: rest).length rest (by
      simp only [List.length_append, List.length_cons]; omega)
  simp only [List.cons_append, List.append_assoc, List.nil_append, parseString, if_true]
  simp only [List.singleton_append] at this ⊢
  rw [this]

theorem renderString_head (s : GoString) (tail : List Char) :
    ∃ t, renderString s ++ tail = '"' :: t :=
  ⟨_, rfl⟩

/-! ### White space, objects and arrays -/

theorem skipSpace_cons (c : Char) (rest : List Char) (hc : isSpace c = false) :
    skipSpace (c :: rest) = c :: rest := by
  simp [skipSpace, hc]

theorem skipSpace_spaces (n : Nat) (c : Char) (rest : List Char) (hc : isSpace c = false) :
    skipSpace (List.replicate n ' ' ++ c :: rest) = c :: rest := by
  induction n with
  | zero => simpa using skipSpace_cons c rest hc
  | succ k ih =>
    rw [List.replicate_succ, List.cons_append, skipSpace, if_pos (by decide), ih]

theorem skipSpace_indent (depth : Nat) (c : Char) (rest : List Char) (hc : isSpace c = false) :
    skipSpace (indent depth ++ c :: rest) = c :: rest := by
  rw [indent, List.cons_append, skipSpace, if_pos (by decide), skipSpace_spaces _ _ _ hc]

theorem expect_append (tok rest : List Char) : expect tok (tok ++ rest) = some rest := by
  induction tok with
  | nil => cases rest <;> rfl
  | cons t ts ih => simp [expect, ih]

theorem expect_nullTok_ne (c : Char) (rest : List Char) (hc : c ≠ 'n') :
    expect nullTok (c :: rest) = none := by
  simp [nullTok, expect, Ne.symm hc]

theorem parseMembers_render {α : Type}
    (field : GoString → α → List Char → Option (α × List Char)) (depth : Nat)
    (rest : List Char) :
    ∀ (ms : List (MemberSpec α)) (m : MemberSpec α) (fuel : Nat) (acc : α),
      ms.length + 1 ≤ fuel →
      (∀ x ∈ m :: ms, x.ReadBy field) →
      parseMembers field fuel acc
        (renderString m.key ++ (':' :: ' ' :: m.text) ++
          ((ms.flatMap fun x => ',' :: renderMember depth x.rendered) ++
            (indent depth ++ '}' :: rest)))
        = some ((m :: ms).foldl (fun a x => x.update a) acc, rest) := by
  intro ms
  induction ms with
  | nil =>
    intro m fuel acc hfuel hread
    obtain ⟨hkey, ⟨c, t, htext, hc⟩, hfield⟩ := hread m (List.mem_cons_self _ _)
    cases fuel with
    | zero => omega
    | succ f =>
      simp only [List.flatMap_nil, List.nil_append, List.append_assoc, parseMembers,
        parseString_renderString m.key hkey, List.cons_append]
      rw [skipSpace_cons ':' _ (by decide)]
      simp only [expect, if_true]
      rw [skipSpace, if_pos (by decide), htext, List.cons_append, skipSpace_cons c _ hc,
        ← List.cons_append, ← htext, hfield]
      simp only
      rw [skipSpace_indent depth '}' rest (by decide)]
      simp [List.foldl]
  | cons m' ms ih =>
    intro m fuel acc hfuel hread
    obtain ⟨hkey, ⟨c, t, htext, hc⟩, hfield⟩ := hread m (List.mem_cons_self _ _)
    obtain ⟨hkey', _, _⟩ := hread m' (List.mem_cons_of_mem _ (List.mem_cons_self _ _))
    cases fuel with
    | zero => omega
    | succ f =>
      simp only [List.flatMap_cons, List.append_assoc, parseMembers,
        parseString_renderString m.key hkey, List.cons_append]
      rw [skipSpace_cons ':' _ (by decide)]
      simp only [expect, if_true]
      rw [skipSpace, if_pos (by decide), htext, List.cons_append, skipSpace_cons c _ hc,
        ← List.cons_append, ← htext, hfield]
      simp only
      rw [skipSpace_cons ',' _ (by decide)]
      simp only [if_true]
      have hnext : skipSpace (renderMember depth m'.rendered ++
          ((ms.flatMap fun x => ',' :: renderMember depth x.rendered) ++
            (indent depth ++ '}' :: rest))) =
          renderString m'.key ++ (':' :: ' ' :: m'.text) ++
            ((ms.flatMap fun x => ',' :: renderMember depth x.rendered) ++
              (indent depth ++ '}' :: rest)) := by
        simp only [renderMember, MemberSpec.rendered, List.append_assoc]
        rw [renderString, List.cons_append, skipSpace_indent _ '"' _ (by decide)]
      rw [hnext, ih m' f (m.update acc) (by simpa using hfuel)
        (fun x hx => hread x (List.mem_cons_of_mem _ hx))]
      simp [List.foldl]

theorem length_flatMap_members {α : Type} (depth : Nat) (ms : List (MemberSpec α)) :
    ms.length ≤ (ms.flatMap fun x => ',' :: renderMember depth x.rendered).length := by
  induction ms with
  | nil => simp
  | cons m ms ih =>
    simp only [List.flatMap_cons, List.length_cons, List.length_append]
    omega

/-- An object written by the encoder is read back member by member. -/
theorem parseObject_render {α : Type}
    (field : GoString → α → List Char → Option (α × List Char)) (depth : Nat)
    (ms : List (MemberSpec α)) (init : α) (rest : List Char)
    (hread : ∀ x ∈ ms, x.ReadBy field) :
    parseObject field init (renderObject depth (ms.map MemberSpec.rendered) ++ rest)
      = some (ms.foldl (fun a x => x.update a) init, rest) := by
  cases ms with
  | nil =>
    simp [renderObject, parseObject, skipSpace_cons '}' rest (by decide)]
  | cons m ms =>
    have hbody : skipSpace (renderMember depth m.rendered ++
        (((ms.map MemberSpec.rendered).flatMap fun m' => ',' :: renderMember depth m') ++
          (indent depth ++ ['}'])) ++ rest) =
        '"' :: ((decodeUnits m.key).flatMap escapeUnit ++ ['"'] ++ (':' :: ' ' :: m.text) ++
          ((ms.flatMap fun x => ',' :: renderMember depth x.rendered) ++
            (indent depth ++ '}' :: rest))) := by
      simp only [renderMember, MemberSpec.rendered, List.append_assoc, List.flatMap_map]
      rw [renderString, List.cons_append, skipSpace_indent _ '"' _ (by decide)]
      simp
    have hparse := parseMembers_render field depth rest ms m
      ('"' :: ((decodeUnits m.key).flatMap escapeUnit ++ ['"'] ++ (':' :: ' ' :: m.text) ++
          ((ms.flatMap fun x => ',' :: renderMember depth x.rendered) ++
            (indent depth ++ '}' :: rest)))).length init (by
        have := length_flatMap_members depth ms
        simp only [List.length_cons, List.length_append]
        omega) hread
    simp only [List.map_cons, renderObject, List.cons_append, parseObject, if_true]
    rw [hbody]
    simp only [show ¬ ('"' = '}') by decide, if_false]
    rw [← hparse]
    simp [renderString]

theorem parseElements_render {β : Type} (elem : List Char → Option (β × List Char))
    (depth : Nat) (rest : List Char) :
    ∀ (xs : List (ElementSpec β)) (x : ElementSpec β) (fuel : Nat),
      xs.length + 1 ≤ fuel →
      (∀ y ∈ x :: xs, y.ReadBy elem) →
      parseElements elem fuel
        (x.text ++ ((xs.flatMap fun y => ',' :: (indent (depth + 1) ++ y.text)) ++
          (indent depth ++ ']' :: rest)))
        = some ((x :: xs).map ElementSpec.value, rest) := by
  intro xs
  induction xs with
  | nil =>
    intro x fuel hfuel hread
    obtain ⟨_, helem⟩ := hread x (List.mem_cons_self _ _)
    cases fuel with
    | zero => omega
    | succ f =>
      simp only [List.flatMap_nil, List.nil_append, parseElements, helem]
      rw [skipSpace_indent depth ']' rest (by decide)]
      simp
  | cons x' xs ih =>
    intro x fuel hfuel hread
    obtain ⟨_, helem⟩ := hread x (List.mem_cons_self _ _)
    obtain ⟨⟨c, t, htext, hc, _⟩, _⟩ :=
      hread x' (List.mem_cons_of_mem _ (List.mem_cons_self _ _))
    cases fuel with
    | zero => omega
    | succ f =>
      simp only [List.flatMap_cons, List.append_assoc, parseElements, helem, List.cons_append]
      rw [skipSpace_cons ',' _ (by decide)]
      simp only [if_true]
      have hnext : skipSpace (indent (depth + 1) ++ (x'.text ++
          ((xs.flatMap fun y => ',' :: (indent (depth + 1) ++ y.text)) ++
            (indent depth ++ ']' :: rest)))) =
          x'.text ++ ((xs.flatMap fun y => ',' :: (indent (depth + 1) ++ y.text)) ++
            (indent depth ++ ']' :: rest)) := by
        rw [htext, List.cons_append, skipSpace_indent _ c _ hc]
      rw [hnext, ih x' f (by simpa using hfuel)
        (fun y hy => hread y (List.mem_cons_of_mem _ hy))]
      rfl

theorem length_flatMap_elements {β : Type} (depth : Nat) (xs : List (ElementSpec β)) :
    xs.length ≤ (xs.flatMap fun y => ',' :: (indent (depth + 1) ++ y.text)).length := by
  induction xs with
  | nil => simp
  | cons x xs ih =>
    simp only [List.flatMap_cons, List.length_cons, List.length_append]
    omega

/-- An array written by the encoder is read back element by element. -/
theorem parseArray_render {β : Type} (elem : List Char → Option (β × List Char))
    (depth : Nat) (xs : List (ElementSpec β)) (rest : List Char)
    (hread : ∀ y ∈ xs, y.ReadBy elem) :
    parseArray elem (renderArray depth (xs.map ElementSpec.text) ++ rest)
      = some (xs.map ElementSpec.value, rest) := by
  cases xs with
  | nil =>
    simp [renderArray, parseArray, skipSpace_cons ']' rest (by decide)]
  | cons x xs =>
    obtain ⟨⟨c, t, htext, hc, hne⟩, _⟩ := hread x (List.mem_cons_self _ _)
    have hparse := parseElements_render elem depth rest xs x
      (x.text ++ ((xs.flatMap fun y => ',' :: (indent (depth + 1) ++ y.text)) ++
          (indent depth ++ ']' :: rest))).length (by
        have := length_flatMap_elements depth xs
        have : 1 ≤ x.text.length := by rw [htext]; simp
        simp only [List.length_append]
        omega) hread
    have hbody : skipSpace (indent (depth + 1) ++ (x.text ++
        (((xs.map ElementSpec.text).flatMap fun x' => ',' :: (indent (depth + 1) ++ x')) ++
          (indent depth ++ [']']))) ++ rest) =
        x.text ++ ((xs.flatMap fun y => ',' :: (indent (depth + 1) ++ y.text)) ++
          (indent depth ++ ']' :: rest)) := by
      simp only [List.append_assoc, List.flatMap_map]
      rw [htext, List.cons_append, skipSpace_indent _ c _ hc]
      simp
    simp only [List.map_cons, renderArray, List.cons_append, parseArray, if_true]
    rw [hbody]
    rw [htext] at hparse ⊢
    simp only [List.cons_append] at hparse ⊢
    simp only [hne, if_false]
    exact hparse

/-! ### Timestamps -/

theorem digitVal_ofNat : ∀ d < 10, digitVal (Char.ofNat (48 + d)) = some d := by
  decide

theorem digitVal_digitChar (n : Nat) : digitVal (digitChar n) = some (n % 10) :=
  digitVal_ofNat (n % 10) (Nat.mod_lt _ (by decide))

theorem parseTwo_twoDigits (n : Nat) (hn : n < 100) :
    parseTwo (digitChar (n / 10)) (digitChar n) = some n := by
  simp only [parseTwo, digitVal_digitChar]
  congr 1
  omega

theorem parseFour_fourDigits (n : Nat) (hn : n < 10000) :
    parseFour (digitChar (n / 1000)) (digitChar (n / 100)) (digitChar (n / 10)) (digitChar n)
      = some n := by
  simp only [parseFour, digitVal_digitChar]
  congr 1
  omega

theorem digitChar_safe_ofNat :
    ∀ d < 10, Char.ofNat (48 + d) ≠ '"' ∧ Char.ofNat (48 + d) ≠ '\\' ∧
      ¬ (Char.ofNat (48 + d)).toNat < 0x20 := by
  decide

theorem safe_digitChar (n : Nat) : SafeChar (digitChar n) :=
  digitChar_safe_ofNat (n % 10) (Nat.mod_lt _ (by decide))

theorem takeRaw_safe (text rest : List Char) (hsafe : ∀ c ∈ text, SafeChar c) :
    takeRaw (text ++ '"' :: rest) = some (text, rest) := by
  induction text with
  | nil => simp [takeRaw]
  | cons c cs ih =>
    obtain ⟨h1, h2, h3⟩ := hsafe c (List.mem_cons_self _ _)
    have hor : ¬ (c = '\\' ∨ c.toNat < 0x20) := by
      rintro (h | h)
      · exact h2 h
      · exact h3 h
    rw [List.cons_append, takeRaw, if_neg h1, if_neg hor,
      ih (fun x hx => hsafe x (List.mem_cons_of_mem _ hx))]

/-! ### The fraction of a second -/

theorem digitsValue_append_zeros (ds : List Nat) (k : Nat) :
    digitsValue (ds ++ List.replicate k 0) = digitsValue ds * 10 ^ k := by
  unfold digitsValue
  induction k with
  | zero => simp
  | succ j ih =>
    rw [List.replicate_succ', ← List.append_assoc, List.foldl_append, ih]
    simp only [List.foldl_cons, List.foldl_nil, Nat.add_zero]
    rw [Nat.pow_succ]
    ring

theorem takeWhile_zero_eq_replicate (l : List Nat) :
    l.takeWhile (fun d => d == 0) = List.replicate (l.takeWhile fun d => d == 0).length 0 := by
  induction l with
  | nil => rfl
  | cons d ds ih =>
    by_cases hd : d = 0
    · subst hd
      simp only [List.takeWhile_cons, beq_self_eq_true, if_true, List.length_cons,
        List.replicate_succ]
      rw [← ih]
    · have : (d == 0) = false := by simpa using hd
      simp [List.takeWhile_cons, this]

theorem trimZeros_spec (ds : List Nat) :
    ∃ k, ds = trimZeros ds ++ List.replicate k 0 := by
  refine ⟨(ds.reverse.takeWhile fun d => d == 0).length, ?_⟩
  have h := List.takeWhile_append_dropWhile (fun d => d == 0) ds.reverse
  have h' : ds = (ds.reverse.dropWhile fun d => d == 0).reverse ++
      (ds.reverse.takeWhile fun d => d == 0).reverse := by
    have := congrArg List.reverse h
    rw [List.reverse_append, List.reverse_reverse] at this
    exact this.symm
  have hz : (ds.reverse.takeWhile fun d => d == 0).reverse =
      List.replicate (ds.reverse.takeWhile fun d => d == 0).length 0 := by
    conv_lhs => rw [takeWhile_zero_eq_replicate ds.reverse]
    rw [List.reverse_replicate]
  rw [trimZeros, ← hz]
  exact h'

theorem digitsValue_nineDigits (n : Nat) (hn : n ≤ 999999999) :
    digitsValue (nineDigits n) = n := by
  simp only [digitsValue, nineDigits, List.foldl_cons, List.foldl_nil]
  omega

theorem nanosOf_trimZeros (n : Nat) (hn : n ≤ 999999999) :
    nanosOf (trimZeros (nineDigits n)) = n := by
  obtain ⟨k, hk⟩ := trimZeros_spec (nineDigits n)
  have hlen : (trimZeros (nineDigits n)).length + k = 9 := by
    have := congrArg List.length hk
    simp only [List.length_append, List.length_replicate] at this
    rw [← this]
    rfl
  have htake : (trimZeros (nineDigits n)).take 9 = trimZeros (nineDigits n) :=
    List.take_of_length_le (by omega)
  rw [nanosOf, htake]
  have hval := digitsValue_nineDigits n hn
  rw [hk, digitsValue_append_zeros] at hval
  have hk9 : 9 - (trimZeros (nineDigits n)).length = k := by omega
  rw [hk9]
  exact hval

theorem trimZeros_ne_nil (n : Nat) (hpos : n ≠ 0) (hn : n ≤ 999999999) :
    trimZeros (nineDigits n) ≠ [] := by
  intro hnil
  have := nanosOf_trimZeros n hn
  rw [hnil] at this
  simp [nanosOf, digitsValue] at this
  exact hpos this.symm

theorem trimZeros_digits (n : Nat) : ∀ d ∈ trimZeros (nineDigits n), d < 10 := by
  intro d hd
  have hmem : d ∈ nineDigits n := by
    rw [trimZeros, List.mem_reverse] at hd
    exact List.mem_reverse.1 ((List.dropWhile_sublist _).subset hd)
  simp only [nineDigits, List.mem_cons, List.mem_singleton, List.not_mem_nil, or_false] at hmem
  omega

theorem digitChar_of_lt (d : Nat) (hd : d < 10) : digitVal (digitChar d) = some d := by
  rw [digitVal_digitChar, Nat.mod_eq_of_lt hd]

theorem takeDigits_digits (ds : List Nat) (hds : ∀ d ∈ ds, d < 10) (c : Char)
    (rest : List Char) (hc : digitVal c = none) :
    takeDigits (ds.map digitChar ++ c :: rest) = (ds, c :: rest) := by
  induction ds with
  | nil => simp [takeDigits, hc]
  | cons d ds ih =>
    have hd := digitChar_of_lt d (hds d (List.mem_cons_self _ _))
    have hrec := ih (fun x hx => hds x (List.mem_cons_of_mem _ hx))
    show takeDigits (digitChar d :: (ds.map digitChar ++ c :: rest)) = _
    rw [takeDigits]
    simp only [hd, hrec]

theorem parseFraction_formatFraction (ns : Nat) (hns : ns ≤ 999999999) (c : Char)
    (rest : List Char) (hc : ZoneStart c) :
    parseFraction (formatFraction ns ++ c :: rest) = (ns, c :: rest) := by
  unfold formatFraction
  by_cases h0 : ns = 0
  · subst h0
    rw [if_pos rfl, List.nil_append]
    cases rest with
    | nil => rfl
    | cons d r =>
      have : ¬ (c = '.' ∧ (digitVal d).isSome = true) := fun h => hc.2 h.1
      simp only [parseFraction, if_neg this]
  · rw [if_neg h0]
    have hne := trimZeros_ne_nil ns h0 hns
    have hdig := trimZeros_digits ns
    have hval := nanosOf_trimZeros ns hns
    generalize trimZeros (nineDigits ns) = ds at hne hdig hval
    cases ds with
    | nil => exact absurd rfl hne
    | cons d ds =>
      have hd := digitChar_of_lt d (hdig d (List.mem_cons_self _ _))
      have htake := takeDigits_digits (d :: ds) hdig c rest hc.1
      simp only [List.map_cons, List.cons_append] at htake ⊢
      simp only [parseFraction, hd, Option.isSome_some, and_self, if_true, htake, hval]

/-! ### The zone -/

theorem zoneStart_sign (z : Int) : ZoneStart (if z < 0 then '-' else '+') := by
  split <;> exact ⟨by decide, by decide⟩

theorem parseZone_formatZone (z : Int) (hz : z.natAbs < 1440) :
    parseZone (formatZone z) = some z := by
  unfold formatZone
  by_cases h0 : z = 0
  · subst h0
    rfl
  · rw [if_neg h0]
    have hh := parseTwo_twoDigits (z.natAbs / 60) (by omega)
    have hm := parseTwo_twoDigits (z.natAbs % 60) (by omega)
    simp only [twoDigits, List.cons_append, List.nil_append, parseZone, hh, hm]
    have hrange : z.natAbs / 60 ≤ 23 ∧ z.natAbs % 60 ≤ 59 ∧ True :=
      ⟨by omega, by omega, trivial⟩
    rw [if_pos hrange]
    have hsum : z.natAbs / 60 * 60 + z.natAbs % 60 = z.natAbs := by omega
    by_cases hneg : z < 0
    · rw [if_pos hneg, if_neg (by decide), if_pos rfl, hsum]
      congr 1
      show - (z.natAbs : Int) = z
      omega
    · rw [if_neg hneg, if_pos rfl, hsum]
      congr 1
      show (z.natAbs : Int) = z
      omega

theorem formatZone_start (z : Int) :
    ∃ c rest, formatZone z = c :: rest ∧ ZoneStart c := by
  unfold formatZone
  by_cases h0 : z = 0
  · rw [if_pos h0]
    exact ⟨'Z', [], rfl, by decide, by decide⟩
  · rw [if_neg h0]
    exact ⟨_, _, rfl, zoneStart_sign z⟩

/-! ### The whole timestamp -/

/-- A valid time is read back from its RFC 3339 text. -/
theorem parseRFC3339_formatTime (t : Time) (ht : t.Valid) :
    parseRFC3339 (formatTime t) = some t := by
  obtain ⟨hy, hm1, hm2, hd1, hd2, hh, hmi, hs, hns, hz⟩ := ht
  obtain ⟨c, zrest, hzone, hstart⟩ := formatZone_start t.zone
  have hfrac : parseFraction (formatFraction t.nanosecond ++ formatZone t.zone) =
      (t.nanosecond, formatZone t.zone) := by
    rw [hzone]
    exact parseFraction_formatFraction _ hns c zrest hstart
  have hday : t.day < 100 := by
    have : daysIn t.month t.year ≤ 31 := by
      unfold daysIn
      repeat' split
      all_goals omega
    omega
  simp only [formatTime, fourDigits, twoDigits, List.cons_append, List.nil_append,
    parseRFC3339, parseFour_fourDigits t.year (by omega), parseTwo_twoDigits t.month (by omega),
    parseTwo_twoDigits t.day hday, parseTwo_twoDigits t.hour (by omega),
    parseTwo_twoDigits t.minute (by omega), parseTwo_twoDigits t.second (by omega)]
  rw [if_pos ⟨hm1, hm2, hd1, hd2, hh, hmi, hs, trivial, trivial, trivial, trivial, trivial⟩,
    hfrac]
  simp only [parseZone_formatZone t.zone hz]

theorem safe_formatZone (z : Int) : ∀ ch ∈ formatZone z, SafeChar ch := by
  intro ch hch
  unfold formatZone at hch
  by_cases h0 : z = 0
  · rw [if_pos h0] at hch
    simp only [List.mem_singleton] at hch
    subst hch
    exact ⟨by decide, by decide, by decide⟩
  · rw [if_neg h0] at hch
    simp only [twoDigits, List.cons_append, List.nil_append, List.mem_cons,
      List.mem_singleton, List.not_mem_nil, or_false] at hch
    rcases hch with h | h | h | h | h | h
    · subst h
      split <;> exact ⟨by decide, by decide, by decide⟩
    · subst h; exact safe_digitChar _
    · subst h; exact safe_digitChar _
    · subst h; exact ⟨by decide, by decide, by decide⟩
    · subst h; exact safe_digitChar _
    · subst h; exact safe_digitChar _

theorem safe_formatFraction (ns : Nat) : ∀ ch ∈ formatFraction ns, SafeChar ch := by
  intro ch hch
  unfold formatFraction at hch
  by_cases h0 : ns = 0
  · rw [if_pos h0] at hch
    cases hch
  · rw [if_neg h0] at hch
    rcases List.mem_cons.1 hch with h | h
    · subst h; exact ⟨by decide, by decide, by decide⟩
    · obtain ⟨d, _, rfl⟩ := List.mem_map.1 h
      exact safe_digitChar _

theorem safe_formatTime (t : Time) : ∀ ch ∈ formatTime t, SafeChar ch := by
  intro ch hch
  have hsep : ∀ x : Char, x = '-' ∨ x = 'T' ∨ x = ':' → SafeChar x := by
    rintro x (rfl | rfl | rfl) <;> exact ⟨by decide, by decide, by decide⟩
  simp only [formatTime, fourDigits, twoDigits, List.cons_append, List.nil_append,
    List.mem_cons, List.mem_append] at hch
  rcases hch with h | h | h | h | h | h | h | h | h | h | h | h | h | h | h | h | h | h | h | h
  all_goals first
    | (subst h; exact safe_digitChar _)
    | (subst h; exact hsep _ (by simp))
    | (rcases h with h | h
       · exact safe_formatFraction _ ch h
       · exact safe_formatZone _ ch h)

/-- A timestamp written by the encoder is read back. -/
theorem parseTimeValue_render (t : Time) (ht : t.Valid) (rest : List Char) :
    parseTimeValue ('"' :: (formatTime t ++ ['"']) ++ rest) = some (some t, rest) := by
  have hraw := takeRaw_safe (formatTime t) rest (safe_formatTime t)
  simp only [List.cons_append, List.append_assoc, List.singleton_append, List.nil_append,
    parseTimeValue, expect_nullTok_ne '"' _ (by decide), if_true, hraw, parseRFC3339_formatTime t ht]

/-! ### String values -/

theorem validUTF8_lit (text : String) : ValidUTF8 (lit text) :=
  ⟨text.toList, rfl⟩

theorem parseStringValue_render (s : GoString) (hs : ValidUTF8 s) (tail : List Char) :
    parseStringValue (renderString s ++ tail) = some (some s, tail) := by
  have hnull : expect nullTok (renderString s ++ tail) = none :=
    expect_nullTok_ne '"' _ (by decide)
  simp only [parseStringValue, hnull, parseString_renderString s hs]

theorem renderString_start (s : GoString) :
    ∃ c t, renderString s = c :: t ∧ isSpace c = false :=
  ⟨'"', _, rfl, by decide⟩

theorem renderObject_start (depth : Nat) (ms : List (GoString × List Char)) :
    ∃ t, renderObject depth ms = '{' :: t := by
  cases ms <;> exact ⟨_, rfl⟩

theorem mem_sortEntries {V : Type} (entries : List (Sigma fun _ : GoString => V))
    (e : Sigma fun _ : GoString => V) : e ∈ sortEntries entries ↔ e ∈ entries :=
  (List.perm_insertionSort _ entries).mem_iff

/-! ### Header maps -/

theorem parseHeaders_render (depth : Nat) (h : HeaderMap) (hv : ValidHeaders h)
    (old : HeaderMap) (tail : List Char) :
    parseHeaders old (renderHeaders depth h ++ tail) = some (mergeHeaders old h, tail) := by
  cases h with
  | none =>
    simp only [renderHeaders, parseHeaders, expect_append, mergeHeaders]
  | some m =>
    obtain ⟨t, ht⟩ := renderObject_start depth
      ((sortEntries m.entries).map fun e => (e.1, renderString e.2))
    have hnull : expect nullTok
        (renderObject depth ((sortEntries m.entries).map fun e => (e.1, renderString e.2))
          ++ tail) = none := by
      rw [ht]
      exact expect_nullTok_ne '{' _ (by decide)
    have hobj := parseObject_render headerMember depth
      ((sortEntries m.entries).map fun e =>
        ({ key := e.1, text := renderString e.2, update := fun acc => acc.insert e.1 e.2 } :
          MemberSpec (AList fun _ : GoString => GoString)))
      (old.getD ∅) tail (by
        intro x hx
        obtain ⟨e, he, rfl⟩ := List.mem_map.1 hx
        obtain ⟨hk, hval⟩ := hv m rfl e ((mem_sortEntries _ e).1 he)
        refine ⟨hk, renderString_start e.2, ?_⟩
        intro acc tl
        simp only [headerMember, parseStringValue_render e.2 hval, Option.getD_some])
    simp only [List.map_map, Function.comp_def, MemberSpec.rendered, List.foldl_map] at hobj
    simp only [renderHeaders, parseHeaders, hnull, hobj, id, mergeHeaders]

theorem renderHeaders_start (depth : Nat) (h : HeaderMap) :
    ∃ c t, renderHeaders depth h = c :: t ∧ isSpace c = false := by
  cases h with
  | none => exact ⟨'n', _, rfl, by decide⟩
  | some m =>
    obtain ⟨t, ht⟩ := renderObject_start depth
      ((sortEntries m.entries).map fun e => (e.1, renderString e.2))
    exact ⟨'{', t, ht, by decide⟩

/-! ### Actions -/

theorem actionMembers_readBy (depth : Nat) (a : Action) (ha : ValidAction a) :
    ∀ x ∈ actionMembers depth a, x.ReadBy actionField := by
  obtain ⟨hid, hname, hurl, hmethod, hheaders, hbody⟩ := ha
  have k1 : lit "name" ≠ lit "id" := by decide
  have k2 : lit "url" ≠ lit "id" ∧ lit "url" ≠ lit "name" := by decide
  have k3 : lit "method" ≠ lit "id" ∧ lit "method" ≠ lit "name" ∧ lit "method" ≠ lit "url" := by
    decide
  have k4 : lit "headers" ≠ lit "id" ∧ lit "headers" ≠ lit "name" ∧
      lit "headers" ≠ lit "url" ∧ lit "headers" ≠ lit "method" := by decide
  have k5 : lit "body" ≠ lit "id" ∧ lit "body" ≠ lit "name" ∧ lit "body" ≠ lit "url" ∧
      lit "body" ≠ lit "method" ∧ lit "body" ≠ lit "headers" := by decide
  intro x hx
  simp only [actionMembers, List.mem_cons, List.mem_singleton, List.not_mem_nil, or_false] at hx
  rcases hx with rfl | rfl | rfl | rfl | rfl | rfl
  · refine ⟨validUTF8_lit _, renderString_start _, fun acc tl => ?_⟩
    simp only [actionField, if_true, parseStringValue_render a.ID hid, Option.getD_some]
  · refine ⟨validUTF8_lit _, renderString_start _, fun acc tl => ?_⟩
    simp only [actionField, if_neg k1, if_true, parseStringValue_render a.Name hname,
      Option.getD_some]
  · refine ⟨validUTF8_lit _, renderString_start _, fun acc tl => ?_⟩
    simp only [actionField, if_neg k2.1, if_neg k2.2, if_true,
      parseStringValue_render a.URL hurl, Option.getD_some]
  · refine ⟨validUTF8_lit _, renderString_start _, fun acc tl => ?_⟩
    simp only [actionField, if_neg k3.1, if_neg k3.2.1, if_neg k3.2.2, if_true,
      parseStringValue_render a.Method hmethod, Option.getD_some]
  · refine ⟨validUTF8_lit _, renderHeaders_start _ _, fun acc tl => ?_⟩
    simp only [actionField, if_neg k4.1, if_neg k4.2.1, if_neg k4.2.2.1, if_neg k4.2.2.2,
      if_true, parseHeaders_render (depth + 1) a.Headers hheaders]
  · refine ⟨validUTF8_lit _, renderString_start _, fun acc tl => ?_⟩
    simp only [actionField, if_neg k5.1, if_neg k5.2.1, if_neg k5.2.2.1, if_neg k5.2.2.2.1,
      if_neg k5.2.2.2.2, if_true, parseStringValue_render a.Body hbody, Option.getD_some]

theorem renderAction_eq (depth : Nat) (a : Action) :
    renderAction depth a = renderObject depth ((actionMembers depth a).map MemberSpec.rendered) :=
  rfl

theorem actionMembers_foldl (depth : Nat) (a : Action) :
    (actionMembers depth a).foldl (fun acc x => x.update acc) zeroAction = normAction a := by
  cases a with
  | mk ID Name URL Method Headers Body =>
    cases Headers <;> rfl

/-- An action written by the encoder is read back, its header map built
again. -/
theorem parseActionValue_render (depth : Nat) (a : Action) (ha : ValidAction a)
    (tail : List Char) :
    parseActionValue (renderAction depth a ++ tail) = some (normAction a, tail) := by
  obtain ⟨t, ht⟩ := renderObject_start depth ((actionMembers depth a).map MemberSpec.rendered)
  have hnull : expect nullTok (renderAction depth a ++ tail) = none := by
    rw [renderAction_eq, ht]
    exact expect_nullTok_ne '{' _ (by decide)
  have hobj := parseObject_render actionField depth (actionMembers depth a) zeroAction tail
    (actionMembers_readBy depth a ha)
  rw [actionMembers_foldl] at hobj
  simp only [parseActionValue, hnull]
  rw [renderAction_eq]
  exact hobj

theorem renderAction_start (depth : Nat) (a : Action) :
    ∃ c t, renderAction depth a = c :: t ∧ isSpace c = false := by
  obtain ⟨t, ht⟩ := renderObject_start depth ((actionMembers depth a).map MemberSpec.rendered)
  exact ⟨'{', t, ht, by decide⟩

/-! ### Log entries -/

theorem parseBoolValue_render (b : Bool) (tail : List Char) :
    parseBoolValue ((if b then trueTok else falseTok) ++ tail) = some (some b, tail) := by
  cases b with
  | true =>
    have h1 : expect nullTok (trueTok ++ tail) = none := expect_nullTok_ne 't' _ (by decide)
    simp only [if_true, parseBoolValue, h1, expect_append]
  | false =>
    have h1 : expect nullTok (falseTok ++ tail) = none := expect_nullTok_ne 'f' _ (by decide)
    have h2 : expect trueTok (falseTok ++ tail) = none := by
      simp [trueTok, falseTok, expect]
    simp only [Bool.false_eq_true, if_false, parseBoolValue, h1, h2, expect_append]

theorem logMembers_readBy (e : LogEntry) (he : ValidEntry e) :
    ∀ x ∈ logMembers e, x.ReadBy logField := by
  obtain ⟨htime, hid, hresp⟩ := he
  have k1 : lit "action_id" ≠ lit "timestamp" := by decide
  have k2 : lit "success" ≠ lit "timestamp" ∧ lit "success" ≠ lit "action_id" := by decide
  have k3 : lit "response" ≠ lit "timestamp" ∧ lit "response" ≠ lit "action_id" ∧
      lit "response" ≠ lit "success" := by decide
  intro x hx
  simp only [logMembers, List.mem_cons, List.mem_singleton, List.not_mem_nil, or_false] at hx
  rcases hx with rfl | rfl | rfl | rfl
  · refine ⟨validUTF8_lit _, ⟨'"', _, rfl, by decide⟩, fun acc tl => ?_⟩
    simp only [logField, if_true, parseTimeValue_render e.Timestamp htime, Option.getD_some]
  · refine ⟨validUTF8_lit _, renderString_start _, fun acc tl => ?_⟩
    simp only [logField, if_neg k1, if_true, parseStringValue_render e.ActionID hid,
      Option.getD_some]
  · refine ⟨validUTF8_lit _, ?_, fun acc tl => ?_⟩
    · cases e.Success
      · exact ⟨'f', _, rfl, by decide⟩
      · exact ⟨'t', _, rfl, by decide⟩
    · simp only [logField, if_neg k2.1, if_neg k2.2, if_true, parseBoolValue_render,
        Option.getD_some]
  · refine ⟨validUTF8_lit _, renderString_start _, fun acc tl => ?_⟩
    simp only [logField, if_neg k3.1, if_neg k3.2.1, if_neg k3.2.2, if_true,
      parseStringValue_render e.Response hresp, Option.getD_some]

theorem renderLogEntry_eq (depth : Nat) (e : LogEntry) :
    renderLogEntry depth e = renderObject depth ((logMembers e).map MemberSpec.rendered) :=
  rfl

/-- A log entry written by the encoder is read back. -/
theorem parseLogEntry_render (depth : Nat) (e : LogEntry) (he : ValidEntry e)
    (tail : List Char) :
    parseLogEntry (renderLogEntry depth e ++ tail) = some (e, tail) := by
  obtain ⟨t, ht⟩ := renderObject_start depth ((logMembers e).map MemberSpec.rendered)
  have hnull : expect nullTok (renderLogEntry depth e ++ tail) = none := by
    rw [renderLogEntry_eq, ht]
    exact expect_nullTok_ne '{' _ (by decide)
  have hobj := parseObject_render logField depth (logMembers e) zeroEntry tail
    (logMembers_readBy e he)
  have hfold : (logMembers e).foldl (fun acc x => x.update acc) zeroEntry = e := rfl
  rw [hfold] at hobj
  simp only [parseLogEntry, hnull]
  rw [renderLogEntry_eq]
  exact hobj

/-! ### The map of actions and the list of logs -/

theorem parseActions_render (depth : Nat) (actions : Option ActionMap)
    (hv : ∀ m, actions = some m → ∀ e ∈ m.entries, ValidUTF8 e.1 ∧ ValidAction e.2)
    (old : Option ActionMap) (tail : List Char) :
    parseActions old (renderActions depth actions ++ tail) =
      some (mergeActions old actions, tail) := by
  cases actions with
  | none =>
    simp only [renderActions, parseActions, expect_append, mergeActions]
  | some m =>
    obtain ⟨t, ht⟩ := renderObject_start depth
      ((sortEntries m.entries).map fun e => (e.1, renderAction (depth + 1) e.2))
    have hnull : expect nullTok
        (renderObject depth
          ((sortEntries m.entries).map fun e => (e.1, renderAction (depth + 1) e.2))
          ++ tail) = none := by
      rw [ht]
      exact expect_nullTok_ne '{' _ (by decide)
    have hobj := parseObject_render actionsMember depth
      ((sortEntries m.entries).map fun e =>
        ({ key := e.1, text := renderAction (depth + 1) e.2,
           update := fun acc => acc.insert e.1 (normAction e.2) } : MemberSpec ActionMap))
      (old.getD ∅) tail (by
        intro x hx
        obtain ⟨e, he, rfl⟩ := List.mem_map.1 hx
        obtain ⟨hk, hval⟩ := hv m rfl e ((mem_sortEntries _ e).1 he)
        refine ⟨hk, renderAction_start _ e.2, ?_⟩
        intro acc tl
        simp only [actionsMember, parseActionValue_render (depth + 1) e.2 hval])
    simp only [List.map_map, Function.comp_def, MemberSpec.rendered, List.foldl_map] at hobj
    simp only [renderActions, parseActions, hnull, hobj, mergeActions]

theorem parseLogs_render (depth : Nat) (logs : List LogEntry)
    (hv : ∀ e ∈ logs, ValidEntry e) (tail : List Char) :
    parseLogs (renderLogs depth logs ++ tail) = some (logs, tail) := by
  cases logs with
  | nil => simp only [renderLogs, parseLogs, expect_append]
  | cons e es =>
    have harr := parseArray_render parseLogEntry depth
      ((e :: es).map fun x =>
        ({ text := renderLogEntry (depth + 1) x, value := x } : ElementSpec LogEntry))
      tail (by
        intro y hy
        obtain ⟨x, hx, rfl⟩ := List.mem_map.1 hy
        obtain ⟨t, ht⟩ := renderObject_start (depth + 1) ((logMembers x).map MemberSpec.rendered)
        refine ⟨⟨'{', t, ?_, by decide, by decide⟩, ?_⟩
        · show renderLogEntry (depth + 1) x = _
          rw [renderLogEntry_eq, ht]
        · intro tl
          exact parseLogEntry_render (depth + 1) x (hv x hx) tl)
    simp only [List.map_map, Function.comp_def, List.map_id'] at harr
    have hnull : expect nullTok
        (renderArray depth ((e :: es).map (renderLogEntry (depth + 1))) ++ tail) = none := by
      simp only [List.map_cons, renderArray, List.cons_append]
      exact expect_nullTok_ne '[' _ (by decide)
    simp only [renderLogs, parseLogs, hnull]
    exact harr

theorem renderActions_start (depth : Nat) (actions : Option ActionMap) :
    ∃ c t, renderActions depth actions = c :: t ∧ isSpace c = false := by
  cases actions with
  | none => exact ⟨'n', _, rfl, by decide⟩
  | some m =>
    obtain ⟨t, ht⟩ := renderObject_start depth
      ((sortEntries m.entries).map fun e => (e.1, renderAction (depth + 1) e.2))
    exact ⟨'{', t, ht, by decide⟩

theorem renderLogs_start (depth : Nat) (logs : List LogEntry) :
    ∃ c t, renderLogs depth logs = c :: t ∧ isSpace c = false := by
  cases logs with
  | nil => exact ⟨'n', _, rfl, by decide⟩
  | cons e es => exact ⟨'[', _, rfl, by decide⟩

/-! ### The snapshot -/

/-- The text of a valid snapshot is read back as the snapshot with its maps
built again. -/
theorem unmarshalText_renderData (d : PersistentData) (hd : ValidData d) :
    unmarshalText (renderData d) = some (normData d) := by
  have k1 : lit "logs" ≠ lit "actions" := by decide
  have hread : ∀ x ∈ dataMembers d, x.ReadBy dataField := by
    intro x hx
    simp only [dataMembers, List.mem_cons, List.mem_singleton, List.not_mem_nil, or_false] at hx
    rcases hx with rfl | rfl
    · refine ⟨validUTF8_lit _, renderActions_start _ _, fun acc tl => ?_⟩
      simp only [dataField, if_true, parseActions_render 1 d.Actions hd.1]
    · refine ⟨validUTF8_lit _, renderLogs_start _ _, fun acc tl => ?_⟩
      simp only [dataField, if_neg k1, if_true, parseLogs_render 1 d.Logs hd.2]
  have hobj := parseObject_render dataField 0 (dataMembers d) zeroData [] hread
  have hfold : (dataMembers d).foldl (fun acc x => x.update acc) zeroData = normData d := by
    cases d with
    | mk Actions Logs => cases Actions <;> rfl
  have heq : renderData d = renderObject 0 ((dataMembers d).map MemberSpec.rendered) := rfl
  obtain ⟨t, ht⟩ := renderObject_start 0 ((dataMembers d).map MemberSpec.rendered)
  rw [hfold, List.append_nil, ← heq] at hobj
  have hskip : skipSpace (renderData d) = renderData d := by
    rw [heq, ht]
    exact skipSpace_cons '{' _ (by decide)
  have hnull : expect nullTok (renderData d) = none := by
    rw [heq, ht]
    exact expect_nullTok_ne '{' _ (by decide)
  unfold unmarshalText
  rw [hskip, hnull]
  simp only [hobj]
  rfl

/-! ### Maps built again -/

theorem lookup_foldl_insert {V : Type} (f : V → V) (k : GoString) :
    ∀ (l : List (Sigma fun _ : GoString => V)) (init : AList fun _ : GoString => V),
      l.NodupKeys →
      (l.foldl (fun acc e => acc.insert e.1 (f e.2)) init).lookup k =
        match l.dlookup k with
        | some v => some (f v)
        | none => init.lookup k := by
  intro l
  induction l with
  | nil => intro init _; rfl
  | cons e l ih =>
    intro init hnd
    obtain ⟨hnot, hnd'⟩ := List.nodupKeys_cons.1 hnd
    rw [List.foldl_cons, ih _ hnd']
    by_cases hk : k = e.1
    · subst hk
      have hnone : l.dlookup e.1 = none := List.dlookup_eq_none.2 hnot
      cases e with
      | mk ek ev =>
        simp only [hnone, AList.lookup_insert, List.dlookup_cons_eq]
    · rw [List.dlookup_cons_ne _ _ hk]
      cases l.dlookup k with
      | some v => rfl
      | none => simp only [AList.lookup_insert_ne hk]

theorem lookup_rekey {V : Type} (f : V → V) (m : AList fun _ : GoString => V)
    (k : GoString) : (rekey f m).lookup k = (m.lookup k).map f := by
  have hperm : List.Perm (sortEntries m.entries) m.entries := List.perm_insertionSort _ _
  have hnd : (sortEntries m.entries).NodupKeys := (List.perm_nodupKeys hperm).2 m.nodupKeys
  rw [rekey, lookup_foldl_insert f k _ ∅ hnd, List.perm_dlookup k hnd m.nodupKeys hperm]
  show _ = (m.entries.dlookup k).map f
  cases m.entries.dlookup k <;> rfl

theorem sameAction_normAction (a : Action) : SameAction (normAction a) a := by
  refine ⟨rfl, rfl, rfl, rfl, ?_, rfl⟩
  cases a with
  | mk ID Name URL Method Headers Body =>
    cases Headers with
    | none => exact Option.Rel.none
    | some m =>
      refine Option.Rel.some fun k => ?_
      rw [lookup_rekey]
      cases m.lookup k <;> rfl

theorem sameRegistry_rekey (actions : Option ActionMap) :
    SameRegistry (actions.map (rekey normAction)) actions := by
  cases actions with
  | none => exact Option.Rel.none
  | some m =>
    refine Option.Rel.some fun id => ?_
    rw [lookup_rekey]
    cases m.lookup id with
    | none => exact Option.Rel.none
    | some a => exact Option.Rel.some (sameAction_normAction a)

/-! ### The codec on a valid snapshot -/

theorem marshalSnapshot_valid (d : PersistentData) (hd : ValidData d) :
    marshalSnapshot d = .ok (utf8Encode (renderData d)) := by
  have hall : (d.Logs.all fun e => timeMarshals e.Timestamp) = true := by
    rw [List.all_eq_true]
    intro e he
    obtain ⟨ht, _, _⟩ := hd.2 e he
    obtain ⟨hy, _, _, _, _, _, _, _, _, hz⟩ := ht
    simp only [timeMarshals, Bool.and_eq_true, decide_eq_true_eq]
    exact ⟨hy, hz⟩
  rw [marshalSnapshot, if_pos hall]

theorem unmarshalSnapshot_render (d : PersistentData) (hd : ValidData d) :
    unmarshalSnapshot (utf8Encode (renderData d)) = .ok (normData d) := by
  rw [unmarshalSnapshot, toText_encode, unmarshalText_renderData d hd]

/-! ## The round trip through the snapshot file -/

set_option maxRecDepth 1000000 in
/-- C10 as stated fails. The log of `rawStatusState` holds a response whose
last byte, `0xff`, is not valid UTF-8 (the status line a remote server sent).
`saveToFile` writes the snapshot and `loadFromFile` reads the file it wrote,
after a restart: the response comes back with the three bytes of `U+FFFD` in
place of that byte, so the loaded log is not the saved log. The log of
`farFutureState` holds an entry stamped in the year 10000, which
`encoding/json` refuses to marshal: `saveToFile` writes no file, and after a
restart the log is empty. -/
theorem save_then_load_roundtrip_counterexample :
    (saveToFile goJSON rawStatusState).disk.content ≠ none ∧
    (loadFromFile goJSON
        { actions := none, logs := [], disk := (saveToFile goJSON rawStatusState).disk }).logs
      = [{ Timestamp := sampleTime, ActionID := lit "00000000000000aa", Success := true,
           Response := lit "Status: 200 " ++ [0xEF, 0xBF, 0xBD] }] ∧
    (loadFromFile goJSON
        { actions := none, logs := [], disk := (saveToFile goJSON rawStatusState).disk }).logs
      ≠ rawStatusState.logs ∧
    (saveToFile goJSON farFutureState).disk.content = none ∧
    (loadFromFile goJSON
        { actions := none, logs := [], disk := (saveToFile goJSON farFutureState).disk }).logs
      ≠ farFutureState.logs := by
  decide

/-- C10, amended. Round trip through the snapshot file, with the codec of
`encoding/json`. Take any state in which every string (ids, names, urls,
methods, header names and values, bodies, response texts) is valid UTF-8 and
every timestamp is a valid time, on a disk where the write and the read
succeed. Then `saveToFile` writes the indented JSON text of the snapshot, and
`loadFromFile` on the saved disk, started from any in-memory contents whatever
(a restart starts from the empty ones), ends with the same log sequence,
entry for entry, and the same action set: `actions` is nil exactly when it
was, and every id maps to nothing or to an action that agrees field for field
with the one saved, header maps compared name by name. -/
theorem save_then_load_roundtrip (s : State) (restartActions : Option ActionMap)
    (restartLogs : List LogEntry)
    (hvalid : ValidData { Actions := s.actions, Logs := s.logs })
    (hwrite : s.disk.writeError = none)
    (hread : s.disk.readError = false) :
    (saveToFile goJSON s).disk.content =
      some (utf8Encode (renderData { Actions := s.actions, Logs := s.logs })) ∧
    SameRegistry
      (loadFromFile goJSON
        { actions := restartActions, logs := restartLogs,
          disk := (saveToFile goJSON s).disk }).actions
      s.actions ∧
    (loadFromFile goJSON
        { actions := restartActions, logs := restartLogs,
          disk := (saveToFile goJSON s).disk }).logs
      = s.logs := by
  have hm : goJSON.marshalIndent { Actions := s.actions, Logs := s.logs } =
      .ok (utf8Encode (renderData { Actions := s.actions, Logs := s.logs })) := by
    rw [show goJSON.marshalIndent = marshalSnapshot from rfl]
    exact marshalSnapshot_valid _ hvalid
  have hu : goJSON.unmarshal (utf8Encode (renderData { Actions := s.actions, Logs := s.logs }))
      = .ok (normData { Actions := s.actions, Logs := s.logs }) := by
    rw [show goJSON.unmarshal = unmarshalSnapshot from rfl]
    exact unmarshalSnapshot_render _ hvalid
  have hsave : (saveToFile goJSON s).disk = { s.disk with
      content := some (utf8Encode (renderData { Actions := s.actions, Logs := s.logs })) } := by
    unfold saveToFile
    rw [hm]
    simp only [hwrite]
  have hload : loadFromFile goJSON
      { actions := restartActions, logs := restartLogs,
        disk := { s.disk with
          content := some (utf8Encode (renderData { Actions := s.actions, Logs := s.logs })) } }
      = { actions := s.actions.map (rekey normAction), logs := s.logs,
          disk := { s.disk with
            content := some (utf8Encode (renderData { Actions := s.actions, Logs := s.logs })) } } := by
    unfold loadFromFile
    simp only [hread, Bool.false_eq_true, if_false]
    rw [hu]
    rfl
  rw [hsave, hload]
  exact ⟨rfl, sameRegistry_rekey s.actions, rfl⟩

theorem validData_sampleData : ValidData sampleData := by
  constructor
  · intro m hm e he
    cases hm
    have hent : ((AList.singleton (lit "00000000000000aa") pingAction).insert
        (lit "00000000000000bb") pongAction).entries =
        ([⟨lit "00000000000000bb", pongAction⟩, ⟨lit "00000000000000aa", pingAction⟩] :
          List (Sigma fun _ : GoString => Action)) := by
      decide
    rw [hent] at he
    have he' : e = (⟨lit "00000000000000bb", pongAction⟩ : Sigma fun _ : GoString => Action) ∨
        e = (⟨lit "00000000000000aa", pingAction⟩ : Sigma fun _ : GoString => Action) := by
      simpa using he
    rcases he' with rfl | rfl
    · refine ⟨validUTF8_lit _, validUTF8_lit _, validUTF8_lit _, validUTF8_lit _,
        validUTF8_lit _, ?_, validUTF8_lit _⟩
      intro h hh
      cases hh
    · refine ⟨validUTF8_lit _, validUTF8_lit _, validUTF8_lit _, validUTF8_lit _,
        validUTF8_lit _, ?_, validUTF8_lit _⟩
      intro h hh e he
      cases hh
      have he' : e = (⟨lit "X-Token", lit "t1"⟩ : Sigma fun _ : GoString => GoString) := by
        simpa [AList.singleton] using he
      subst he'
      exact ⟨validUTF8_lit _, validUTF8_lit _⟩
  · intro e he
    have he' : e = pingEntry := by simpa [sampleData] using he
    subst he'
    exact ⟨by decide, validUTF8_lit _, validUTF8_lit _⟩

/-- Instance of the amended C10: the sample state, with two actions (one of
them with a header map) and one log entry, saved and then loaded after a
restart into the nil map and the empty log. -/
theorem save_then_load_roundtrip_witness :
    ValidData { Actions := sampleState.actions, Logs := sampleState.logs } ∧
    sampleState.disk.writeError = none ∧
    sampleState.disk.readError = false ∧
    SameRegistry
      (loadFromFile goJSON
        { actions := none, logs := [], disk := (saveToFile goJSON sampleState).disk }).actions
      sampleState.actions ∧
    (loadFromFile goJSON
        { actions := none, logs := [], disk := (saveToFile goJSON sampleState).disk }).logs
      = sampleState.logs :=
  have h := save_then_load_roundtrip sampleState none [] validData_sampleData rfl rfl
  ⟨validData_sampleData, rfl, rfl, h.2.1, h.2.2⟩

/-! ## Concurrent calls of `createAction`: the interleavings -/

/-- A call that runs its three critical sections without interruption does
what the handler `createAction` does. -/
theorem createStep_uninterrupted (c : Codec) (s : State) (call : CreateCall) :
    createStep c
        (createStep c (createStep c s call .check).1 call (createStep c s call .check).2).1 call
        (createStep c (createStep c s call .check).1 call (createStep c s call .check).2).2
      = ((createAction c s call.decoded call.rnd).1,
          .finished (createAction c s call.decoded call.rnd).2) := by
  cases hd : call.decoded with
  | error err => simp [createStep, createAction, hd]
  | ok action =>
    by_cases hname : nameTaken s.registry action.Name = true
    · simp [createStep, createAction, hd, hname]
    · by_cases hurl : action.URL = lit ""
      · simp [createStep, createAction, hd, hname, hurl]
      · cases hst : store s (prepare action call.rnd).ID (prepare action call.rnd) with
        | none => simp [createStep, createAction, hd, hname, hurl, hst]
        | some s' => simp [createStep, createAction, hd, hname, hurl, hst]

set_option maxRecDepth 1000000 in
/-- C11, evaluated on the code. Two calls of `createAction` ask for the unused
name `A` with non-empty urls, on a fresh server. When the scheduler lets both
run the name loop before either inserts (schedule 0, 1, 0, 1, 0, 1), both
calls return with `respondJSON`, so two of them succeed, and the registry ends
with two actions called `A`: its names are no longer unique. When one call
runs to its end before the other starts (schedule 0, 0, 0, 1, 1, 1), the second
is answered `Action name must be unique` and exactly one succeeds. -/
theorem concurrent_create_same_name_both_succeed :
    sameNameCalls.map requestedName = [lit "A", lit "A"] ∧
    nameTaken freshState.registry (lit "A") = false ∧
    (runSchedule goJSON sameNameCalls freshState [0, 1, 0, 1, 0, 1]).2 =
      [.finished (.json { ID := lit "0101010101010101", Name := lit "A",
                          URL := lit "http://e.com", Method := lit "POST", Headers := none,
                          Body := lit "" }),
       .finished (.json { ID := lit "0202020202020202", Name := lit "A",
                          URL := lit "http://f.com", Method := lit "POST", Headers := none,
                          Body := lit "" })] ∧
    (runSchedule goJSON sameNameCalls freshState [0, 1, 0, 1, 0, 1]).2.countP succeeded
      = 2 ∧
    countNamed (runSchedule goJSON sameNameCalls freshState [0, 1, 0, 1, 0, 1]).1.registry
      (lit "A") = 2 ∧
    ¬ NamesUnique
      (runSchedule goJSON sameNameCalls freshState [0, 1, 0, 1, 0, 1]).1.registry ∧
    (runSchedule goJSON sameNameCalls freshState [0, 0, 0, 1, 1, 1]).2 =
      [.finished (.json { ID := lit "0101010101010101", Name := lit "A",
                          URL := lit "http://e.com", Method := lit "POST", Headers := none,
                          Body := lit "" }),
       .finished (.error (lit "Action name must be unique") 400)] ∧
    (runSchedule goJSON sameNameCalls freshState [0, 0, 0, 1, 1, 1]).2.countP succeeded
      = 1 := by
  decide

end CompanionProxy
